import Mathlib

/-!
Verification of the bipartite matching engine (models/entities.py,
algorithms/hungarian.py, algorithms/gale_shapley.py).

Conventions of the embedding:
* Python floats are modelled as `ℚ`.
* A Python attribute value is an `AttrValue` (number, text or list of text,
  the value universe of the data model); an absent attribute is `none`.
* Python dicts are association lists; insertion appends, update rewrites in
  place, and a lookup that models `dict[k]` takes the last binding of `k`.
* `scipy.optimize.linear_sum_assignment` is modelled as the minimiser of the
  total cost over all permutation assignments; a cost of `none` stands for
  `np.inf` (a forbidden edge), and the solver fails with the scipy error
  message when every permutation crosses a forbidden edge.
-/

inductive AttrValue where
  | num (q : ℚ)
  | str (s : String)
  | list (l : List String)
deriving DecidableEq, Repr

inductive EntityType where
  | user | item | job | candidate | mentor | mentee
deriving DecidableEq, Repr

/-- The `.value` of the Python enum member. -/
def EntityType.value : EntityType → String
  | .user => "user"
  | .item => "item"
  | .job => "job"
  | .candidate => "candidate"
  | .mentor => "mentor"
  | .mentee => "mentee"

structure Entity where
  id : String
  entity_type : EntityType
  attributes : List (String × AttrValue)
  preferences : List String := []
  constraints : List (String × AttrValue) := []
deriving DecidableEq, Repr

/-- `Entity.get_attribute`: `self.attributes.get(key)`, `none` models Python `None`. -/
def Entity.get_attribute (e : Entity) (key : String) : Option AttrValue :=
  List.lookup key e.attributes

/-- Membership test `key in self.attributes`. -/
def Entity.hasAttr (e : Entity) (key : String) : Bool :=
  (List.lookup key e.attributes).isSome

structure Criteria where
  weights : List (String × ℚ)
  required_attributes : List String
  optional_attributes : List String
  min_score : ℚ := 0
  max_matches : Nat := 1
deriving DecidableEq, Repr

/-- `Criteria.__post_init__`: normalize weights to sum to 1 when the total is
positive, otherwise leave them unchanged. -/
def Criteria.postInit (c : Criteria) : Criteria :=
  let total_weight := (c.weights.map Prod.snd).sum
  if 0 < total_weight then
    { c with weights := c.weights.map (fun p => (p.1, p.2 / total_weight)) }
  else c

/-- Dataclass construction always runs `__post_init__`. -/
def mkCriteria (weights : List (String × ℚ)) (required_attributes optional_attributes : List String)
    (min_score : ℚ) : Criteria :=
  Criteria.postInit ⟨weights, required_attributes, optional_attributes, min_score, 1⟩

/-- `Criteria.calculate_weighted_score`: sum of `weights.get(attr, 0) * score`
over the entries of the `scores` dict. -/
def Criteria.calculate_weighted_score (c : Criteria) (scores : List (String × ℚ)) : ℚ :=
  (scores.map (fun p => ((List.lookup p.1 c.weights).getD 0) * p.2)).sum

/-- Values stored in a `Match.details` dict. -/
inductive DetailValue where
  | s (v : String)
  | b (v : Bool)
deriving DecidableEq, Repr

structure Match where
  entity_a_id : String
  entity_b_id : String
  score : ℚ
  details : List (String × DetailValue)
  matched_at : Option String := none
deriving DecidableEq, Repr

structure MatchingResult where
  matches' : List Match
  unmatched_entities : List String
  total_score : ℚ
  execution_time : ℚ
deriving DecidableEq, Repr

/-- Python `str.lower()` on the data-model value universe (ASCII attribute text). -/
def pyLower (s : String) : String :=
  String.mk (s.data.map Char.toLower)

/-- `needle` starts `hay` (on character lists). -/
def startsWithL : List Char → List Char → Bool
  | [], _ => true
  | _ :: _, [] => false
  | a :: as, b :: bs => a = b && startsWithL as bs

/-- Helper for the Python substring test. -/
def containsSubL (needle : List Char) : List Char → Bool
  | [] => needle.isEmpty
  | b :: bs => startsWithL needle (b :: bs) || containsSubL needle bs

/-- Python `needle in hay` on strings. -/
def pyStrIn (needle hay : String) : Bool :=
  containsSubL needle.data hay.data

/-- Python truthiness of an optional attribute value (`None`, `0`, `""` and
`[]` are falsy). -/
def truthy : Option AttrValue → Bool
  | none => false
  | some (.num q) => q ≠ 0
  | some (.str s) => s ≠ ""
  | some (.list l) => l ≠ []

namespace HungarianMatcher

/-- `HungarianMatcher._compare_attribute` (the `attribute` name argument is
unused by the source body and omitted). -/
def compare_attribute : Option AttrValue → Option AttrValue → ℚ
  | none, _ => 0
  | some _, none => 0
  | some (.num a), some (.num b) => max 0 (1 - |a - b| / 100)
  | some (.str a), some (.str b) =>
      if pyLower a = pyLower b then 1
      else if pyStrIn (pyLower a) (pyLower b) || pyStrIn (pyLower b) (pyLower a) then 1/2
      else 0
  | some (.list a), some (.list b) =>
      let set_a := (a.map pyLower).toFinset
      let set_b := (b.map pyLower).toFinset
      if set_a = ∅ ∨ set_b = ∅ then 0
      else
        let union := (set_a ∪ set_b).card
        if 0 < union then ((set_a ∩ set_b).card : ℚ) / (union : ℚ) else 0
  | some va, some vb => if va = vb then 1 else 0

/-- `HungarianMatcher._calculate_similarity`: weighted attribute scores, the
required-attribute gate, then the min-score threshold. -/
def calculate_similarity (entity_a entity_b : Entity) (criteria : Criteria) : ℚ :=
  let scores := criteria.weights.map (fun p =>
    (p.1, compare_attribute (entity_a.get_attribute p.1) (entity_b.get_attribute p.1)))
  if criteria.required_attributes.any
      (fun req => !(entity_a.hasAttr req) || !(entity_b.hasAttr req)) then 0
  else
    let weighted_score := criteria.calculate_weighted_score scores
    if weighted_score < criteria.min_score then 0
    else weighted_score

end HungarianMatcher

namespace HungarianMatcher

/-- Reads a permutation list as an assignment function. -/
def asFun (N : Nat) (l : List (Fin N)) : Fin N → Fin N :=
  fun i => l.getD i.val i

/-- All permutation assignments of an `N × N` matrix. -/
def allAssignments (N : Nat) : List (Fin N → Fin N) :=
  (List.finRange N).permutations.map (asFun N)

/-- Total cost of an assignment (forbidden `none` edges only ever read behind
the feasibility filter). -/
def totalCost (N : Nat) (cost : Fin N → Fin N → Option ℚ) (f : Fin N → Fin N) : ℚ :=
  ((List.finRange N).map (fun i => (cost i (f i)).getD 0)).sum

/-- An assignment is feasible when it crosses no forbidden (`np.inf`) edge. -/
def feasibleB (N : Nat) (cost : Fin N → Fin N → Option ℚ) (f : Fin N → Fin N) : Bool :=
  (List.finRange N).all (fun i => (cost i (f i)).isSome)

/-- Model of `scipy.optimize.linear_sum_assignment` on a square matrix: the
minimum-total-cost permutation, or failure when no permutation avoids the
forbidden entries (scipy raises `ValueError: cost matrix is infeasible`). -/
def linear_sum_assignment (N : Nat) (cost : Fin N → Fin N → Option ℚ) :
    Option (Fin N → Fin N) :=
  ((allAssignments N).filter (feasibleB N cost)).argmin (totalCost N cost)

/-- Entry `(i, j)` of the padded square cost matrix: `-score` on real cells
(`_calculate_cost_matrix`), `none` (that is, `np.inf`) on the padding added
for a rectangular instance. -/
def cost_at (entities_a entities_b : List Entity) (criteria : Criteria) (N : Nat)
    (i j : Fin N) : Option ℚ :=
  if h : i.val < entities_a.length ∧ j.val < entities_b.length then
    some (-(calculate_similarity (entities_a.get ⟨i.val, h.1⟩)
      (entities_b.get ⟨j.val, h.2⟩) criteria))
  else none

/-- One step of the decode loop over the solver's index pairs `(i, f i)`:
keep the pair when both indices are real (not padding) and the recovered
score is positive and at or above the threshold. -/
def decode_at (entities_a entities_b : List Entity) (criteria : Criteria) (N : Nat)
    (f : Fin N → Fin N) (i : Fin N) : Option (Nat × Nat × Match) :=
  if h : i.val < entities_a.length ∧ (f i).val < entities_b.length then
    let ent_a := entities_a.get ⟨i.val, h.1⟩
    let ent_b := entities_b.get ⟨(f i).val, h.2⟩
    let score := calculate_similarity ent_a ent_b criteria
    if 0 < score ∧ criteria.min_score ≤ score then
      some (i.val, (f i).val, Match.mk ent_a.id ent_b.id score
        [("algorithm", DetailValue.s "Hungarian Algorithm"),
         ("entity_a_type", DetailValue.s ent_a.entity_type.value),
         ("entity_b_type", DetailValue.s ent_b.entity_type.value)] none)
    else none
  else none

/-- `HungarianMatcher.match` (named `matchEntities`, `match` being reserved).
`execution_time` is modelled as 0. An uncaught scipy `ValueError` is the
`Except.error` case. -/
def matchEntities (entities_a entities_b : List Entity) (criteria : Criteria) :
    Except String MatchingResult :=
  if entities_a = [] ∨ entities_b = [] then
    Except.ok ⟨[], (entities_a ++ entities_b).map Entity.id, 0, 0⟩
  else
    let N := max entities_a.length entities_b.length
    match linear_sum_assignment N (cost_at entities_a entities_b criteria N) with
    | none => Except.error "cost matrix is infeasible"
    | some f =>
      let kept := (List.finRange N).filterMap (decode_at entities_a entities_b criteria N f)
      let found := kept.map (fun t => t.2.2)
      let matched_a := kept.map (fun t => t.1)
      let matched_b := kept.map (fun t => t.2.1)
      let unmatched :=
        (entities_a.enum.filter (fun p => ! matched_a.contains p.1)).map (fun p => p.2.id)
        ++ (entities_b.enum.filter (fun p => ! matched_b.contains p.1)).map (fun p => p.2.id)
      Except.ok ⟨found, unmatched, (found.map Match.score).sum, 0⟩

end HungarianMatcher

namespace GaleShapleyMatcher

/-- The `elif` chain of the comparison inlined in
`GaleShapleyMatcher._calculate_similarity`, reached when the values differ:
numbers score by distance, otherwise 0.5 when both values are truthy. -/
def attrScoreNe : Option AttrValue → Option AttrValue → ℚ
  | some (.num a), some (.num b) => max 0 (1 - |a - b| / 100)
  | value_a, value_b => if truthy value_a && truthy value_b then 1/2 else 0

/-- The per-attribute comparison inlined in
`GaleShapleyMatcher._calculate_similarity`: equal values score 1, numbers by
distance, otherwise 0.5 when both values are truthy. -/
def attrScore (value_a value_b : Option AttrValue) : ℚ :=
  if value_a = value_b then 1 else attrScoreNe value_a value_b

/-- `GaleShapleyMatcher._calculate_similarity`. -/
def calculate_similarity (entity_a entity_b : Entity) (criteria : Criteria) : ℚ :=
  let scores := criteria.weights.map (fun p =>
    (p.1, attrScore (entity_a.get_attribute p.1) (entity_b.get_attribute p.1)))
  if criteria.required_attributes.any
      (fun req => !(entity_a.hasAttr req) || !(entity_b.hasAttr req)) then 0
  else criteria.calculate_weighted_score scores

/-- `GaleShapleyMatcher._build_preference_lists`: for each entity a ranking of
the opposite side's ids by descending raw score; Python `list.sort` is stable,
which `List.mergeSort` with the reflexive descending order reproduces. -/
def build_preference_lists (entities_a entities_b : List Entity) (criteria : Criteria) :
    List (String × List String) :=
  (entities_a.map (fun entity_a =>
    (entity_a.id,
      ((entities_b.map (fun entity_b =>
          (entity_b.id, calculate_similarity entity_a entity_b criteria))).mergeSort
        (fun x y => decide (y.2 ≤ x.2))).map Prod.fst)))
  ++ (entities_b.map (fun entity_b =>
    (entity_b.id,
      ((entities_a.map (fun entity_a =>
          (entity_a.id, calculate_similarity entity_b entity_a criteria))).mergeSort
        (fun x y => decide (y.2 ≤ x.2))).map Prod.fst)))

/-- `dict[k]` over an insertion-ordered association list: the last binding
wins, as with repeated Python dict writes. -/
def dictGet (l : List (String × List String)) (k : String) : List String :=
  (((l.filter (fun p => p.1 == k)).getLast?).map Prod.snd).getD []

/-- `{e.id: e for e in ...}[k]`: the last binding wins. -/
def dictGetEntity (l : List Entity) (k : String) : Option Entity :=
  (l.filter (fun e => e.id == k)).getLast?

/-- The proposer-side preference row built for `entity_a`: the ids of
`entities_b` ranked by descending raw score. -/
def prefListA (entities_b : List Entity) (criteria : Criteria) (entity_a : Entity) :
    List String :=
  ((entities_b.map (fun entity_b =>
      (entity_b.id, calculate_similarity entity_a entity_b criteria))).mergeSort
    (fun x y => decide (y.2 ≤ x.2))).map Prod.fst

/-- The acceptor-side preference row built for `entity_b`: the ids of
`entities_a` ranked by descending raw score. -/
def prefListB (entities_a : List Entity) (criteria : Criteria) (entity_b : Entity) :
    List String :=
  ((entities_a.map (fun entity_a =>
      (entity_a.id, calculate_similarity entity_b entity_a criteria))).mergeSort
    (fun x y => decide (y.2 ≤ x.2))).map Prod.fst

/-- The mutable state of the deferred-acceptance loop: the `free_proposers`
work list, the `engagements` dict (acceptor id to proposer id, in insertion
order), the `proposer_index` dict, and a counter of proposals made. -/
structure GSState where
  free : List String
  engagements : List (String × String)
  index : String → Nat
  proposals : Nat

/-- In-place rewrite of the engagement of acceptor `q` (a Python dict update
of an existing key keeps its position). -/
def updateEng (eng : List (String × String)) (q p : String) : List (String × String) :=
  eng.map (fun e => if e.1 = q then (e.1, p) else e)

/-- One iteration of the `while free_proposers` loop, with `p :: rest` the
current free list: pop an exhausted proposer, or let `p` propose to the next
acceptor on its list — engage a free acceptor, displace a less preferred
current partner, or stay free after a rejection. -/
def gsStep (prefs : String → List String) (st : GSState) (p : String) (rest : List String) :
    GSState :=
  let i := st.index p
  let pl := prefs p
  if pl.length ≤ i then { st with free := rest }
  else
    let q := pl.getD i ""
    let index' := fun x => if x = p then i + 1 else st.index x
    match List.lookup q st.engagements with
    | none =>
        { free := rest, engagements := st.engagements ++ [(q, p)],
          index := index', proposals := st.proposals + 1 }
    | some current =>
        if List.indexOf p (prefs q) < List.indexOf current (prefs q) then
          { free := rest ++ [current], engagements := updateEng st.engagements q p,
            index := index', proposals := st.proposals + 1 }
        else { st with index := index', proposals := st.proposals + 1 }

/-- The deferred-acceptance loop. The Python `while` has no fuel; the fuel
below is only a bound on the number of iterations, and the termination claim
shows the fuel used by `matchEntities` always suffices. -/
def gsLoop (prefs : String → List String) : Nat → GSState → GSState
  | 0, st => st
  | fuel + 1, st =>
    match st.free with
    | [] => st
    | p :: rest => gsLoop prefs fuel (gsStep prefs st p rest)

/-- Initial loop state: every proposer free, no engagements, all indices 0. -/
def initState (entities_a : List Entity) : GSState :=
  ⟨entities_a.map Entity.id, [], fun _ => 0, 0⟩

/-- Iteration budget: at most `n*m` proposals plus `n` exhaustion pops. -/
def gsFuel (n m : Nat) : Nat :=
  n * m + n + 1

/-- The state in which the deferred-acceptance loop converges. -/
def finalState (entities_a entities_b : List Entity) (criteria : Criteria) : GSState :=
  gsLoop (dictGet (build_preference_lists entities_a entities_b criteria))
    (gsFuel entities_a.length entities_b.length) (initState entities_a)

/-- Turns one converged engagement `(acceptor, proposer)` into a `Match`
when the recomputed score passes the threshold. -/
def buildMatch (all : List Entity) (criteria : Criteria) (e : String × String) :
    Option Match :=
  match dictGetEntity all e.2, dictGetEntity all e.1 with
  | some entity_a, some entity_b =>
    let score := calculate_similarity entity_a entity_b criteria
    if criteria.min_score ≤ score then
      some (Match.mk e.2 e.1 score
        [("algorithm", DetailValue.s "Gale-Shapley Algorithm"),
         ("stable", DetailValue.b true)] none)
    else none
  | _, _ => none

/-- `GaleShapleyMatcher.match` (named `matchEntities`, `match` being
reserved). `execution_time` is modelled as 0. -/
def matchEntities (entities_a entities_b : List Entity) (criteria : Criteria) :
    MatchingResult :=
  if entities_a = [] ∨ entities_b = [] then
    ⟨[], (entities_a ++ entities_b).map Entity.id, 0, 0⟩
  else
    let final := finalState entities_a entities_b criteria
    let found := final.engagements.filterMap
      (buildMatch (entities_a ++ entities_b) criteria)
    let matched_ids := found.map Match.entity_a_id ++ found.map Match.entity_b_id
    let unmatched := ((entities_a ++ entities_b).filter
      (fun e => ! matched_ids.contains e.id)).map Entity.id
    ⟨found, unmatched, (found.map Match.score).sum, 0⟩

/-- The engagement of proposer `p`, read off the acceptor-keyed dict. -/
def partnerOfProposer (eng : List (String × String)) (p : String) : Option String :=
  (eng.find? (fun e => e.2 == p)).map Prod.fst

/-- Proposer `p` ranks acceptor `q` above its current partner (an unmatched
proposer prefers any acceptor on its list). -/
def prefersOverPartnerA (prefs : String → List String) (eng : List (String × String))
    (p q : String) : Bool :=
  match partnerOfProposer eng p with
  | none => (prefs p).contains q
  | some q' => decide (List.indexOf q (prefs p) < List.indexOf q' (prefs p))

/-- Acceptor `q` ranks proposer `p` above its current partner. -/
def prefersOverPartnerB (prefs : String → List String) (eng : List (String × String))
    (q p : String) : Bool :=
  match List.lookup q eng with
  | none => (prefs q).contains p
  | some p' => decide (List.indexOf p (prefs q) < List.indexOf p' (prefs q))

/-- `p` and `q` form a blocking pair of the engagement set `eng` under the
derived preference lists: not engaged to each other, and each ranks the other
above its current partner. -/
def blockingPair (prefs : String → List String) (eng : List (String × String))
    (p q : String) : Bool :=
  (List.lookup q eng != some p) && prefersOverPartnerA prefs eng p q
    && prefersOverPartnerB prefs eng q p

/-- The recomputed aggregate score of a converged engagement
`(acceptor, proposer)`, resolved through the entity dict as in `match`. -/
def engagedScore (entities_a entities_b : List Entity) (criteria : Criteria)
    (e : String × String) : ℚ :=
  match dictGetEntity (entities_a ++ entities_b) e.2,
      dictGetEntity (entities_a ++ entities_b) e.1 with
  | some entity_a, some entity_b => calculate_similarity entity_a entity_b criteria
  | _, _ => 0

/-- Termination measure of the deferred-acceptance loop: pending preference
entries of the proposers plus the length of the free list. -/
def gsMeasure (A : List String) (prefs : String → List String) (st : GSState) : Nat :=
  (A.map (fun p => (prefs p).length - st.index p)).sum + st.free.length

end GaleShapleyMatcher

/-- A feasible one-to-one assignment restricted to pairs scoring at least
`min_score`: index pairs, one-to-one on each side, every pair at or above the
threshold under the optimal-assignment matcher's scorer. -/
def FeasibleAssignment (entities_a entities_b : List Entity) (criteria : Criteria)
    (P : List (Fin entities_a.length × Fin entities_b.length)) : Prop :=
  (P.map Prod.fst).Nodup ∧ (P.map Prod.snd).Nodup ∧
  ∀ p ∈ P, criteria.min_score ≤
    HungarianMatcher.calculate_similarity (entities_a.get p.1) (entities_b.get p.2) criteria

/-- Total score of a feasible assignment. -/
def assignmentScore (entities_a entities_b : List Entity) (criteria : Criteria)
    (P : List (Fin entities_a.length × Fin entities_b.length)) : ℚ :=
  (P.map (fun p => HungarianMatcher.calculate_similarity (entities_a.get p.1)
    (entities_b.get p.2) criteria)).sum

/-- The produced pairing, as the set of (a-side id, b-side id) pairs. -/
def matchedPairs (r : MatchingResult) : Finset (String × String) :=
  (r.matches'.map (fun m => (m.entity_a_id, m.entity_b_id))).toFinset

/-! Concrete instances used by witnesses and counterexamples. -/

def sampleCriteria : Criteria := mkCriteria [("experience_years", 1)] [] [] (1/2)

def sampleX : Entity :=
  ⟨"X", EntityType.user, [("experience_years", AttrValue.num 5)], [], []⟩

def sampleY : Entity :=
  ⟨"Y", EntityType.user, [("experience_years", AttrValue.num 5)], [], []⟩

def sampleZ : Entity :=
  ⟨"Z", EntityType.user, [("experience_years", AttrValue.num 55)], [], []⟩

def sampleW : Entity :=
  ⟨"W", EntityType.user, [("experience_years", AttrValue.num 90)], [], []⟩

/-- Criteria of the cross-matcher divergence instance (weights already sum
to 1, `min_score` 0). -/
def divCriteria : Criteria := mkCriteria [("u", 2/5), ("v", 3/5)] [] [] 0

def divX1 : Entity := ⟨"x1", EntityType.user, [("v", AttrValue.str "HELLO")], [], []⟩

def divX2 : Entity :=
  ⟨"x2", EntityType.user, [("u", AttrValue.num 50), ("v", AttrValue.str "WORLD")], [], []⟩

def divY1 : Entity :=
  ⟨"y1", EntityType.item, [("u", AttrValue.num 0), ("v", AttrValue.str "hello")], [], []⟩

def divY2 : Entity := ⟨"y2", EntityType.item, [("v", AttrValue.str "WORLD")], [], []⟩

/-- Invariants of the deferred-acceptance loop over proposer ids `A` and
acceptor ids `B`: the free list holds distinct proposers, engagements map
distinct acceptors to distinct proposers none of whom is free, every
proposer is free, engaged or exhausted, every acceptor already proposed to
is engaged to a proposer it ranks at least as high, an engaged proposer's
partner is its most recent proposal, and the proposal counter equals the
total index advance, with each index bounded by its list length. -/
structure GSInv (A B : List String) (prefs : String → List String)
    (st : GaleShapleyMatcher.GSState) : Prop where
  free_sub : ∀ x ∈ st.free, x ∈ A
  free_nodup : st.free.Nodup
  keys_nodup : (st.engagements.map Prod.fst).Nodup
  keys_B : ∀ e ∈ st.engagements, e.1 ∈ B
  vals_A : ∀ e ∈ st.engagements, e.2 ∈ A
  vals_nodup : (st.engagements.map Prod.snd).Nodup
  free_not_val : ∀ x ∈ st.free, ∀ e ∈ st.engagements, e.2 ≠ x
  partition : ∀ x ∈ A, x ∈ st.free ∨ (∃ e ∈ st.engagements, e.2 = x) ∨
    (prefs x).length ≤ st.index x
  history : ∀ p ∈ A, ∀ k, k < st.index p → ∀ hk : k < (prefs p).length,
    ∃ p', List.lookup ((prefs p).get ⟨k, hk⟩) st.engagements = some p' ∧
      List.indexOf p' (prefs ((prefs p).get ⟨k, hk⟩)) ≤
      List.indexOf p (prefs ((prefs p).get ⟨k, hk⟩))
  partner_last : ∀ e ∈ st.engagements, ∃ hk : st.index e.2 - 1 < (prefs e.2).length,
    0 < st.index e.2 ∧ (prefs e.2).get ⟨st.index e.2 - 1, hk⟩ = e.1
  props_eq : st.proposals = (A.map st.index).sum
  index_le : ∀ x ∈ A, st.index x ≤ (prefs x).length

/-- Mutual-top dominance of a score matrix with respect to the pairing `π`:
each a-side entity strictly prefers its π-partner to every other b-side
entity, and each π-partner strictly prefers its a-side entity back. -/
def MutualTop (entities_a entities_b : List Entity) (criteria : Criteria)
    (sim : Entity → Entity → Criteria → ℚ)
    (π : Fin entities_a.length → Fin entities_b.length) : Prop :=
  (∀ (i : Fin entities_a.length) (j : Fin entities_b.length), j ≠ π i →
    sim (entities_a.get i) (entities_b.get j) criteria <
    sim (entities_a.get i) (entities_b.get (π i)) criteria) ∧
  (∀ i k : Fin entities_a.length, k ≠ i →
    sim (entities_b.get (π i)) (entities_a.get k) criteria <
    sim (entities_b.get (π i)) (entities_a.get i) criteria)

/-! Association-list helper lemmas. -/

theorem lookup_mem {l : List (String × ℚ)} {k : String} {v : ℚ}
    (h : List.lookup k l = some v) : (k, v) ∈ l := by
  induction l with
  | nil => simp [List.lookup] at h
  | cons e t ih =>
    rw [List.lookup_cons] at h
    by_cases hk : (k == e.1) = true
    · have hke : k = e.1 := by simpa using hk
      simp only [hk] at h
      cases h
      subst hke
      simp
    · simp only [Bool.not_eq_true] at hk
      simp only [hk] at h
      exact List.mem_cons_of_mem _ (ih h)

theorem nodup_lookup {l : List (String × ℚ)} (hnd : (l.map Prod.fst).Nodup)
    {k : String} {v : ℚ} (h : (k, v) ∈ l) : List.lookup k l = some v := by
  induction l with
  | nil => simp at h
  | cons e t ih =>
    simp only [List.map_cons, List.nodup_cons] at hnd
    rcases List.mem_cons.1 h with h1 | h1
    · subst h1
      simp [List.lookup_cons]
    · have hne : ¬ (k == e.1) = true := by
        intro hc
        have hke : k = e.1 := by simpa using hc
        subst hke
        exact hnd.1 (List.mem_map.2 ⟨(e.1, v), h1, rfl⟩)
      rw [List.lookup_cons]
      simp only [hne]
      exact ih hnd.2 h1

/-! Sum helper lemmas. -/

theorem sum_nonneg_all_zero {l : List ℚ} (h0 : ∀ x ∈ l, 0 ≤ x) (hs : l.sum = 0) :
    ∀ x ∈ l, x = 0 := by
  induction l with
  | nil => simp
  | cons a t ih =>
    have hta : 0 ≤ a := h0 a (by simp)
    have htt : 0 ≤ t.sum := List.sum_nonneg (fun x hx => h0 x (List.mem_cons_of_mem _ hx))
    rw [List.sum_cons] at hs
    have ha : a = 0 := by linarith
    have ht : t.sum = 0 := by linarith
    intro x hx
    rcases List.mem_cons.1 hx with h1 | h1
    · exact h1 ▸ ha
    · exact ih (fun y hy => h0 y (List.mem_cons_of_mem _ hy)) ht x h1

theorem sum_map_div (w : List (String × ℚ)) (T : ℚ) :
    ((w.map (fun p => (p.1, p.2 / T))).map Prod.snd).sum = (w.map Prod.snd).sum / T := by
  rw [List.map_map]
  simp only [div_eq_mul_inv, Function.comp_def]
  exact List.sum_map_mul_right w (fun p => p.2) T⁻¹

theorem postInit_weights_pos (c : Criteria) (hpos : 0 < (c.weights.map Prod.snd).sum) :
    c.postInit.weights = c.weights.map (fun p => (p.1, p.2 / (c.weights.map Prod.snd).sum)) := by
  simp only [Criteria.postInit]
  rw [if_pos hpos]

theorem postInit_weights_nonpos (c : Criteria) (hz : ¬ 0 < (c.weights.map Prod.snd).sum) :
    c.postInit = c := by
  simp only [Criteria.postInit]
  rw [if_neg hz]

/-! Bounds of the per-attribute comparisons and of the weighted aggregate. -/

theorem ite_one_half_nonneg (c1 c2 : Prop) [Decidable c1] [Decidable c2] :
    0 ≤ (if c1 then (1:ℚ) else if c2 then 1/2 else 0) := by
  split_ifs <;> norm_num

theorem ite_one_half_le_one (c1 c2 : Prop) [Decidable c1] [Decidable c2] :
    (if c1 then (1:ℚ) else if c2 then 1/2 else 0) ≤ 1 := by
  split_ifs <;> norm_num

theorem ite_one_nonneg (c1 : Prop) [Decidable c1] : 0 ≤ (if c1 then (1:ℚ) else 0) := by
  split_ifs <;> norm_num

theorem ite_one_le_one (c1 : Prop) [Decidable c1] : (if c1 then (1:ℚ) else 0) ≤ 1 := by
  split_ifs <;> norm_num

theorem max_sub_le_one (q q' : ℚ) : max 0 (1 - |q - q'| / 100) ≤ 1 := by
  apply max_le (by norm_num)
  have h : (0:ℚ) ≤ |q - q'| / 100 := by positivity
  linarith

theorem jaccard_nonneg (sa sb : Finset String) :
    0 ≤ (if sa = ∅ ∨ sb = ∅ then (0:ℚ)
      else if 0 < (sa ∪ sb).card then ((sa ∩ sb).card : ℚ) / ((sa ∪ sb).card : ℚ) else 0) := by
  split_ifs <;> positivity

theorem jaccard_le_one (sa sb : Finset String) :
    (if sa = ∅ ∨ sb = ∅ then (0:ℚ)
      else if 0 < (sa ∪ sb).card then ((sa ∩ sb).card : ℚ) / ((sa ∪ sb).card : ℚ) else 0) ≤ 1 := by
  split_ifs with h1 h2
  · norm_num
  · rw [div_le_one (by exact_mod_cast h2)]
    exact_mod_cast Finset.card_le_card Finset.inter_subset_union
  · norm_num

theorem truthy_half_nonneg (x y : Option AttrValue) :
    0 ≤ (if (truthy x && truthy y) = true then (1:ℚ)/2 else 0) := by
  split_ifs <;> norm_num

theorem truthy_half_le_one (x y : Option AttrValue) :
    (if (truthy x && truthy y) = true then (1:ℚ)/2 else 0) ≤ 1 := by
  split_ifs <;> norm_num

theorem compare_attribute_nonneg (va vb : Option AttrValue) :
    0 ≤ HungarianMatcher.compare_attribute va vb := by
  rcases va with _ | a <;> rcases vb with _ | b
  · exact le_refl (0:ℚ)
  · exact le_refl (0:ℚ)
  · rcases a with q | s | l <;> exact le_refl (0:ℚ)
  · rcases a with q | s | l <;> rcases b with q' | s' | l'
    · exact le_max_left _ _
    · exact ite_one_nonneg _
    · exact ite_one_nonneg _
    · exact ite_one_nonneg _
    · exact ite_one_half_nonneg _ _
    · exact ite_one_nonneg _
    · exact ite_one_nonneg _
    · exact ite_one_nonneg _
    · exact jaccard_nonneg _ _

theorem compare_attribute_le_one (va vb : Option AttrValue) :
    HungarianMatcher.compare_attribute va vb ≤ 1 := by
  rcases va with _ | a <;> rcases vb with _ | b
  · exact zero_le_one
  · exact zero_le_one
  · rcases a with q | s | l <;> exact zero_le_one
  · rcases a with q | s | l <;> rcases b with q' | s' | l'
    · exact max_sub_le_one _ _
    · exact ite_one_le_one _
    · exact ite_one_le_one _
    · exact ite_one_le_one _
    · exact ite_one_half_le_one _ _
    · exact ite_one_le_one _
    · exact ite_one_le_one _
    · exact ite_one_le_one _
    · exact jaccard_le_one _ _

theorem attrScoreNe_nonneg (va vb : Option AttrValue) :
    0 ≤ GaleShapleyMatcher.attrScoreNe va vb := by
  rcases va with _ | a <;> rcases vb with _ | b
  · exact truthy_half_nonneg _ _
  · exact truthy_half_nonneg _ _
  · rcases a with q | s | l <;> exact truthy_half_nonneg _ _
  · rcases a with q | s | l <;> rcases b with q' | s' | l'
    · exact le_max_left _ _
    · exact truthy_half_nonneg _ _
    · exact truthy_half_nonneg _ _
    · exact truthy_half_nonneg _ _
    · exact truthy_half_nonneg _ _
    · exact truthy_half_nonneg _ _
    · exact truthy_half_nonneg _ _
    · exact truthy_half_nonneg _ _
    · exact truthy_half_nonneg _ _

theorem attrScoreNe_le_one (va vb : Option AttrValue) :
    GaleShapleyMatcher.attrScoreNe va vb ≤ 1 := by
  rcases va with _ | a <;> rcases vb with _ | b
  · exact truthy_half_le_one _ _
  · exact truthy_half_le_one _ _
  · rcases a with q | s | l <;> exact truthy_half_le_one _ _
  · rcases a with q | s | l <;> rcases b with q' | s' | l'
    · exact max_sub_le_one _ _
    · exact truthy_half_le_one _ _
    · exact truthy_half_le_one _ _
    · exact truthy_half_le_one _ _
    · exact truthy_half_le_one _ _
    · exact truthy_half_le_one _ _
    · exact truthy_half_le_one _ _
    · exact truthy_half_le_one _ _
    · exact truthy_half_le_one _ _

theorem attrScore_nonneg (va vb : Option AttrValue) :
    0 ≤ GaleShapleyMatcher.attrScore va vb := by
  rw [GaleShapleyMatcher.attrScore]
  split_ifs with h
  · norm_num
  · exact attrScoreNe_nonneg va vb

theorem attrScore_le_one (va vb : Option AttrValue) :
    GaleShapleyMatcher.attrScore va vb ≤ 1 := by
  rw [GaleShapleyMatcher.attrScore]
  split_ifs with h
  · norm_num
  · exact attrScoreNe_le_one va vb

/-! Symmetry of the per-attribute comparisons. -/

theorem numcmp_comm (q q' : ℚ) :
    max (0:ℚ) (1 - |q - q'| / 100) = max 0 (1 - |q' - q| / 100) := by
  rw [abs_sub_comm]

theorem strcmp_comm (x y : String) :
    (if x = y then (1:ℚ) else if pyStrIn x y || pyStrIn y x then 1/2 else 0) =
    (if y = x then (1:ℚ) else if pyStrIn y x || pyStrIn x y then 1/2 else 0) := by
  by_cases h1 : x = y
  · rw [if_pos h1, if_pos h1.symm]
  · rw [if_neg h1, if_neg (show ¬ y = x from fun hc => h1 hc.symm), Bool.or_comm]

theorem eqcmp_comm (x y : AttrValue) :
    (if x = y then (1:ℚ) else 0) = (if y = x then (1:ℚ) else 0) := by
  by_cases h : x = y
  · rw [if_pos h, if_pos h.symm]
  · rw [if_neg h, if_neg (fun hc => h hc.symm)]

theorem jaccard_comm (sa sb : Finset String) :
    (if sa = ∅ ∨ sb = ∅ then (0:ℚ)
      else if 0 < (sa ∪ sb).card then ((sa ∩ sb).card : ℚ) / ((sa ∪ sb).card : ℚ) else 0) =
    (if sb = ∅ ∨ sa = ∅ then (0:ℚ)
      else if 0 < (sb ∪ sa).card then ((sb ∩ sa).card : ℚ) / ((sb ∪ sa).card : ℚ) else 0) := by
  by_cases h1 : sa = ∅ ∨ sb = ∅
  · rw [if_pos h1, if_pos (Or.symm h1)]
  · rw [if_neg h1, if_neg (fun hc => h1 (Or.symm hc))]
    rw [Finset.union_comm sb sa, Finset.inter_comm sb sa]

theorem truthy_half_comm (x y : Option AttrValue) :
    (if (truthy x && truthy y) = true then (1:ℚ)/2 else 0) =
    (if (truthy y && truthy x) = true then (1:ℚ)/2 else 0) := by
  rw [Bool.and_comm]

theorem compare_attribute_comm (va vb : Option AttrValue) :
    HungarianMatcher.compare_attribute va vb = HungarianMatcher.compare_attribute vb va := by
  rcases va with _ | a <;> rcases vb with _ | b
  · rfl
  · cases b <;> rfl
  · cases a <;> rfl
  · rcases a with q | s | l <;> rcases b with q' | s' | l'
    · exact numcmp_comm q q'
    · exact eqcmp_comm (AttrValue.num q) (AttrValue.str s')
    · exact eqcmp_comm (AttrValue.num q) (AttrValue.list l')
    · exact eqcmp_comm (AttrValue.str s) (AttrValue.num q')
    · exact strcmp_comm (pyLower s) (pyLower s')
    · exact eqcmp_comm (AttrValue.str s) (AttrValue.list l')
    · exact eqcmp_comm (AttrValue.list l) (AttrValue.num q')
    · exact eqcmp_comm (AttrValue.list l) (AttrValue.str s')
    · exact jaccard_comm ((l.map pyLower).toFinset) ((l'.map pyLower).toFinset)

theorem attrScoreNe_comm (va vb : Option AttrValue) :
    GaleShapleyMatcher.attrScoreNe va vb = GaleShapleyMatcher.attrScoreNe vb va := by
  rcases va with _ | a <;> rcases vb with _ | b
  · rfl
  · rcases b with q | s | l
    · exact truthy_half_comm none (some (AttrValue.num q))
    · exact truthy_half_comm none (some (AttrValue.str s))
    · exact truthy_half_comm none (some (AttrValue.list l))
  · rcases a with q | s | l
    · exact truthy_half_comm (some (AttrValue.num q)) none
    · exact truthy_half_comm (some (AttrValue.str s)) none
    · exact truthy_half_comm (some (AttrValue.list l)) none
  · rcases a with q | s | l <;> rcases b with q' | s' | l'
    · exact numcmp_comm q q'
    · exact truthy_half_comm (some (AttrValue.num q)) (some (AttrValue.str s'))
    · exact truthy_half_comm (some (AttrValue.num q)) (some (AttrValue.list l'))
    · exact truthy_half_comm (some (AttrValue.str s)) (some (AttrValue.num q'))
    · exact truthy_half_comm (some (AttrValue.str s)) (some (AttrValue.str s'))
    · exact truthy_half_comm (some (AttrValue.str s)) (some (AttrValue.list l'))
    · exact truthy_half_comm (some (AttrValue.list l)) (some (AttrValue.num q'))
    · exact truthy_half_comm (some (AttrValue.list l)) (some (AttrValue.str s'))
    · exact truthy_half_comm (some (AttrValue.list l)) (some (AttrValue.list l'))

theorem attrScore_comm (va vb : Option AttrValue) :
    GaleShapleyMatcher.attrScore va vb = GaleShapleyMatcher.attrScore vb va := by
  rw [GaleShapleyMatcher.attrScore, GaleShapleyMatcher.attrScore]
  by_cases h : va = vb
  · rw [if_pos h, if_pos h.symm]
  · rw [if_neg h, if_neg (fun hc => h hc.symm)]
    exact attrScoreNe_comm va vb

theorem calculate_weighted_score_nonneg (c : Criteria) (scores : List (String × ℚ))
    (hw : ∀ p ∈ c.weights, 0 ≤ p.2) (hs : ∀ p ∈ scores, 0 ≤ p.2) :
    0 ≤ c.calculate_weighted_score scores := by
  rw [Criteria.calculate_weighted_score]
  apply List.sum_nonneg
  intro x hx
  rcases List.mem_map.1 hx with ⟨p, hp, rfl⟩
  apply mul_nonneg
  · cases hlk : List.lookup p.1 c.weights with
    | none => simp
    | some v => simpa using hw _ (lookup_mem hlk)
  · exact hs p hp

theorem calculate_weighted_score_le_sum (c : Criteria) (f : String → ℚ)
    (hnd : (c.weights.map Prod.fst).Nodup)
    (hw : ∀ p ∈ c.weights, 0 ≤ p.2)
    (hf : ∀ k, f k ≤ 1) :
    c.calculate_weighted_score (c.weights.map (fun p => (p.1, f p.1))) ≤
      (c.weights.map Prod.snd).sum := by
  rw [Criteria.calculate_weighted_score, List.map_map]
  apply List.sum_le_sum
  intro p hp
  simp only [Function.comp_apply]
  have hlk : List.lookup p.1 c.weights = some p.2 := nodup_lookup hnd (by simpa using hp)
  rw [hlk]
  simpa using mul_le_of_le_one_right (hw p hp) (hf p.1)

/-! Facts about criteria produced by construction. -/

theorem mk_weights_keys (w : List (String × ℚ)) (req opt : List String) (ms : ℚ) :
    (mkCriteria w req opt ms).weights.map Prod.fst = w.map Prod.fst := by
  rw [mkCriteria]
  by_cases hpos : 0 < (w.map Prod.snd).sum
  · rw [postInit_weights_pos _ hpos, List.map_map]
    rfl
  · rw [postInit_weights_nonpos _ hpos]

theorem mk_weights_nonneg (w : List (String × ℚ)) (req opt : List String) (ms : ℚ)
    (hw : ∀ p ∈ w, 0 ≤ p.2) : ∀ p ∈ (mkCriteria w req opt ms).weights, 0 ≤ p.2 := by
  rw [mkCriteria]
  by_cases hpos : 0 < (w.map Prod.snd).sum
  · rw [postInit_weights_pos _ hpos]
    intro p hp
    rcases List.mem_map.1 hp with ⟨e, he, rfl⟩
    exact div_nonneg (hw e he) (le_of_lt hpos)
  · rw [postInit_weights_nonpos _ hpos]
    exact hw

theorem mk_weights_sum_le_one (w : List (String × ℚ)) (req opt : List String) (ms : ℚ)
    (hw : ∀ p ∈ w, 0 ≤ p.2) :
    ((mkCriteria w req opt ms).weights.map Prod.snd).sum ≤ 1 := by
  rw [mkCriteria]
  by_cases hpos : 0 < (w.map Prod.snd).sum
  · rw [postInit_weights_pos _ hpos, sum_map_div, div_self (ne_of_gt hpos)]
  · rw [postInit_weights_nonpos _ hpos]
    have : 0 ≤ (w.map Prod.snd).sum := List.sum_nonneg (by
      intro x hx
      rcases List.mem_map.1 hx with ⟨e, he, rfl⟩
      exact hw e he)
    have hz : (w.map Prod.snd).sum = 0 := le_antisymm (not_lt.1 hpos) this
    rw [hz]
    norm_num

theorem mk_required (w : List (String × ℚ)) (req opt : List String) (ms : ℚ) :
    (mkCriteria w req opt ms).required_attributes = req := by
  rw [mkCriteria]
  by_cases hpos : 0 < (w.map Prod.snd).sum
  · simp only [Criteria.postInit]
    rw [if_pos hpos]
  · rw [postInit_weights_nonpos _ hpos]

theorem mk_min_score (w : List (String × ℚ)) (req opt : List String) (ms : ℚ) :
    (mkCriteria w req opt ms).min_score = ms := by
  rw [mkCriteria]
  by_cases hpos : 0 < (w.map Prod.snd).sum
  · simp only [Criteria.postInit]
    rw [if_pos hpos]
  · rw [postInit_weights_nonpos _ hpos]

/-- Claim C9: with an empty entity list on either side, both matchers return
normally with no matches, every id of both sides unmatched, and total score
zero. -/
theorem empty_side_returns_empty_result (entities_a entities_b : List Entity)
    (criteria : Criteria) (h : entities_a = [] ∨ entities_b = []) :
    HungarianMatcher.matchEntities entities_a entities_b criteria =
      Except.ok ⟨[], (entities_a ++ entities_b).map Entity.id, 0, 0⟩ ∧
    GaleShapleyMatcher.matchEntities entities_a entities_b criteria =
      ⟨[], (entities_a ++ entities_b).map Entity.id, 0, 0⟩ := by
  constructor
  · rw [HungarianMatcher.matchEntities, if_pos h]
  · rw [GaleShapleyMatcher.matchEntities, if_pos h]

/-- Witness for C9 at a concrete empty-left instance. -/
theorem empty_side_returns_empty_result_witness :
    ([] = ([] : List Entity) ∨ [sampleY] = ([] : List Entity)) ∧
    (HungarianMatcher.matchEntities [] [sampleY] sampleCriteria =
      Except.ok ⟨[], ["Y"], 0, 0⟩ ∧
     GaleShapleyMatcher.matchEntities [] [sampleY] sampleCriteria = ⟨[], ["Y"], 0, 0⟩) :=
  ⟨Or.inl rfl, empty_side_returns_empty_result [] [sampleY] sampleCriteria (Or.inl rfl)⟩

/-- Claim C7: constructing a `Criteria` from non-negative weights rescales
them proportionally to sum to exactly 1 when the original sum is positive,
and leaves them unchanged (hence all zero) when the original sum is 0. -/
theorem criteria_weights_normalized (w : List (String × ℚ)) (req opt : List String)
    (ms : ℚ) (hw : ∀ p ∈ w, 0 ≤ p.2) :
    (0 < (w.map Prod.snd).sum →
      ((mkCriteria w req opt ms).weights.map Prod.snd).sum = 1 ∧
      (mkCriteria w req opt ms).weights =
        w.map (fun p => (p.1, p.2 / (w.map Prod.snd).sum))) ∧
    ((w.map Prod.snd).sum = 0 →
      (mkCriteria w req opt ms).weights = w ∧ ∀ p ∈ w, p.2 = 0) := by
  constructor
  · intro hpos
    have hweq := postInit_weights_pos ⟨w, req, opt, ms, 1⟩ hpos
    rw [mkCriteria, hweq]
    refine ⟨?_, rfl⟩
    rw [sum_map_div, div_self (ne_of_gt hpos)]
  · intro hzero
    have hweq := postInit_weights_nonpos ⟨w, req, opt, ms, 1⟩ (by rw [hzero]; exact lt_irrefl 0)
    rw [mkCriteria, hweq]
    refine ⟨rfl, fun p hp => ?_⟩
    exact sum_nonneg_all_zero (by
        intro x hx
        rcases List.mem_map.1 hx with ⟨e, he, rfl⟩
        exact hw e he) hzero p.2 (List.mem_map_of_mem Prod.snd hp)

/-- Witness for C7 at concrete positive-sum and zero-sum weight lists. -/
theorem criteria_weights_normalized_witness :
    (∀ p ∈ [("a", (2:ℚ)), ("b", 2)], 0 ≤ p.2) ∧
    ((0 < ([("a", (2:ℚ)), ("b", 2)].map Prod.snd).sum →
      ((mkCriteria [("a", 2), ("b", 2)] [] [] 0).weights.map Prod.snd).sum = 1 ∧
      (mkCriteria [("a", 2), ("b", 2)] [] [] 0).weights =
        [("a", (2:ℚ)), ("b", 2)].map
          (fun p => (p.1, p.2 / ([("a", (2:ℚ)), ("b", 2)].map Prod.snd).sum))) ∧
     (([("a", (2:ℚ)), ("b", 2)].map Prod.snd).sum = 0 →
      (mkCriteria [("a", 2), ("b", 2)] [] [] 0).weights = [("a", (2:ℚ)), ("b", 2)] ∧
      ∀ p ∈ [("a", (2:ℚ)), ("b", 2)], p.2 = 0)) := by
  refine ⟨?_, criteria_weights_normalized [("a", 2), ("b", 2)] [] [] 0 ?_⟩ <;>
  · intro p hp
    simp only [List.mem_cons, List.not_mem_nil, or_false] at hp
    rcases hp with rfl | rfl <;> norm_num

/-! Similarity-scorer facts: required-attribute gate, range, threshold. -/

theorem hungarian_gate (a b : Entity) (c : Criteria)
    (ha : c.required_attributes.any
      (fun req => !(a.hasAttr req) || !(b.hasAttr req)) = true) :
    HungarianMatcher.calculate_similarity a b c = 0 := by
  simp only [HungarianMatcher.calculate_similarity]
  rw [if_pos ha]

theorem gs_gate (a b : Entity) (c : Criteria)
    (ha : c.required_attributes.any
      (fun req => !(a.hasAttr req) || !(b.hasAttr req)) = true) :
    GaleShapleyMatcher.calculate_similarity a b c = 0 := by
  simp only [GaleShapleyMatcher.calculate_similarity]
  rw [if_pos ha]

theorem hungarian_similarity_nonneg (a b : Entity) (c : Criteria)
    (hw : ∀ p ∈ c.weights, 0 ≤ p.2) :
    0 ≤ HungarianMatcher.calculate_similarity a b c := by
  simp only [HungarianMatcher.calculate_similarity]
  split_ifs with h1 h2
  · exact le_refl 0
  · exact le_refl 0
  · exact calculate_weighted_score_nonneg c _ hw (by
      intro p hp
      rcases List.mem_map.1 hp with ⟨e, he, rfl⟩
      exact compare_attribute_nonneg _ _)

theorem hungarian_similarity_le_one (a b : Entity) (c : Criteria)
    (hnd : (c.weights.map Prod.fst).Nodup) (hw : ∀ p ∈ c.weights, 0 ≤ p.2)
    (hsum : (c.weights.map Prod.snd).sum ≤ 1) :
    HungarianMatcher.calculate_similarity a b c ≤ 1 := by
  simp only [HungarianMatcher.calculate_similarity]
  split_ifs with h1 h2
  · exact zero_le_one
  · exact zero_le_one
  · exact le_trans (calculate_weighted_score_le_sum c
      (fun k => HungarianMatcher.compare_attribute (a.get_attribute k) (b.get_attribute k))
      hnd hw (fun k => compare_attribute_le_one _ _)) hsum

theorem gs_similarity_nonneg (a b : Entity) (c : Criteria)
    (hw : ∀ p ∈ c.weights, 0 ≤ p.2) :
    0 ≤ GaleShapleyMatcher.calculate_similarity a b c := by
  simp only [GaleShapleyMatcher.calculate_similarity]
  split_ifs with h1
  · exact le_refl 0
  · exact calculate_weighted_score_nonneg c _ hw (by
      intro p hp
      rcases List.mem_map.1 hp with ⟨e, he, rfl⟩
      exact attrScore_nonneg _ _)

theorem gs_similarity_le_one (a b : Entity) (c : Criteria)
    (hnd : (c.weights.map Prod.fst).Nodup) (hw : ∀ p ∈ c.weights, 0 ≤ p.2)
    (hsum : (c.weights.map Prod.snd).sum ≤ 1) :
    GaleShapleyMatcher.calculate_similarity a b c ≤ 1 := by
  simp only [GaleShapleyMatcher.calculate_similarity]
  split_ifs with h1
  · exact zero_le_one
  · exact le_trans (calculate_weighted_score_le_sum c
      (fun k => GaleShapleyMatcher.attrScore (a.get_attribute k) (b.get_attribute k))
      hnd hw (fun k => attrScore_le_one _ _)) hsum

/-- The optimal-assignment scorer is thresholded at scoring time: it returns
either exactly 0 or a value at or above `min_score`. -/
theorem hungarian_similarity_cases (a b : Entity) (c : Criteria) :
    HungarianMatcher.calculate_similarity a b c = 0 ∨
    c.min_score ≤ HungarianMatcher.calculate_similarity a b c := by
  simp only [HungarianMatcher.calculate_similarity]
  split_ifs with h1 h2
  · exact Or.inl rfl
  · exact Or.inl rfl
  · exact Or.inr (not_lt.1 h2)

/-- Claim C5: for criteria constructed from non-negative weights, each
matcher's similarity scorer stays within [0,1], and returns exactly 0 when
any required attribute is missing from either entity. -/
theorem similarity_unit_interval_and_required_gate (a b : Entity) (c : Criteria)
    (w : List (String × ℚ)) (req opt : List String) (ms : ℚ)
    (hc : c = mkCriteria w req opt ms)
    (hw : ∀ p ∈ w, 0 ≤ p.2) (hnd : (w.map Prod.fst).Nodup) :
    (0 ≤ HungarianMatcher.calculate_similarity a b c ∧
      HungarianMatcher.calculate_similarity a b c ≤ 1) ∧
    (0 ≤ GaleShapleyMatcher.calculate_similarity a b c ∧
      GaleShapleyMatcher.calculate_similarity a b c ≤ 1) ∧
    (∀ r ∈ c.required_attributes,
      (a.hasAttr r = false ∨ b.hasAttr r = false) →
      HungarianMatcher.calculate_similarity a b c = 0 ∧
      GaleShapleyMatcher.calculate_similarity a b c = 0) := by
  subst hc
  have hw' : ∀ p ∈ (mkCriteria w req opt ms).weights, 0 ≤ p.2 :=
    mk_weights_nonneg w req opt ms hw
  have hnd' : ((mkCriteria w req opt ms).weights.map Prod.fst).Nodup := by
    rw [mk_weights_keys]
    exact hnd
  have hsum := mk_weights_sum_le_one w req opt ms hw
  refine ⟨⟨hungarian_similarity_nonneg a b _ hw',
    hungarian_similarity_le_one a b _ hnd' hw' hsum⟩,
    ⟨gs_similarity_nonneg a b _ hw', gs_similarity_le_one a b _ hnd' hw' hsum⟩,
    fun r hr hmiss => ?_⟩
  have hany : (mkCriteria w req opt ms).required_attributes.any
      (fun req => !(a.hasAttr req) || !(b.hasAttr req)) = true := by
    apply List.any_eq_true.2
    refine ⟨r, hr, ?_⟩
    rcases hmiss with h | h <;> simp [h]
  exact ⟨hungarian_gate a b _ hany, gs_gate a b _ hany⟩

/-- Witness for C5 at a concrete instance with a required attribute missing
on the b side. -/
theorem similarity_unit_interval_and_required_gate_witness :
    (mkCriteria [("experience_years", 1)] ["skill"] [] 0 =
      mkCriteria [("experience_years", 1)] ["skill"] [] 0) ∧
    (∀ p ∈ [("experience_years", (1:ℚ))], 0 ≤ p.2) ∧
    ([("experience_years", (1:ℚ))].map Prod.fst).Nodup ∧
    ((0 ≤ HungarianMatcher.calculate_similarity sampleX sampleY
        (mkCriteria [("experience_years", 1)] ["skill"] [] 0) ∧
      HungarianMatcher.calculate_similarity sampleX sampleY
        (mkCriteria [("experience_years", 1)] ["skill"] [] 0) ≤ 1) ∧
     (0 ≤ GaleShapleyMatcher.calculate_similarity sampleX sampleY
        (mkCriteria [("experience_years", 1)] ["skill"] [] 0) ∧
      GaleShapleyMatcher.calculate_similarity sampleX sampleY
        (mkCriteria [("experience_years", 1)] ["skill"] [] 0) ≤ 1) ∧
     (∀ r ∈ (mkCriteria [("experience_years", 1)] ["skill"] [] 0).required_attributes,
      (sampleX.hasAttr r = false ∨ sampleY.hasAttr r = false) →
      HungarianMatcher.calculate_similarity sampleX sampleY
        (mkCriteria [("experience_years", 1)] ["skill"] [] 0) = 0 ∧
      GaleShapleyMatcher.calculate_similarity sampleX sampleY
        (mkCriteria [("experience_years", 1)] ["skill"] [] 0) = 0)) :=
  ⟨rfl, by norm_num, by simp,
    similarity_unit_interval_and_required_gate sampleX sampleY _ _ _ _ _ rfl
      (by norm_num) (by simp)⟩

/-- Claim C10: each matcher's similarity scorer is symmetric in its two
entity arguments, for every criteria and every pair of entities. -/
theorem similarity_scorers_symmetric (a b : Entity) (c : Criteria) :
    HungarianMatcher.calculate_similarity a b c =
      HungarianMatcher.calculate_similarity b a c ∧
    GaleShapleyMatcher.calculate_similarity a b c =
      GaleShapleyMatcher.calculate_similarity b a c := by
  constructor
  · simp only [HungarianMatcher.calculate_similarity]
    rw [show (fun p : String × ℚ =>
          (p.1, HungarianMatcher.compare_attribute (a.get_attribute p.1) (b.get_attribute p.1)))
        = (fun p : String × ℚ =>
          (p.1, HungarianMatcher.compare_attribute (b.get_attribute p.1) (a.get_attribute p.1)))
      from funext fun p => by rw [compare_attribute_comm]]
    rw [show (fun req => !(a.hasAttr req) || !(b.hasAttr req))
        = (fun req => !(b.hasAttr req) || !(a.hasAttr req))
      from funext fun r => Bool.or_comm _ _]
  · simp only [GaleShapleyMatcher.calculate_similarity]
    rw [show (fun p : String × ℚ =>
          (p.1, GaleShapleyMatcher.attrScore (a.get_attribute p.1) (b.get_attribute p.1)))
        = (fun p : String × ℚ =>
          (p.1, GaleShapleyMatcher.attrScore (b.get_attribute p.1) (a.get_attribute p.1)))
      from funext fun p => by rw [attrScore_comm]]
    rw [show (fun req => !(a.hasAttr req) || !(b.hasAttr req))
        = (fun req => !(b.hasAttr req) || !(a.hasAttr req))
      from funext fun r => Bool.or_comm _ _]

/-- Claim C3 (documents the divergence): with 3 entities on side A and 1 on
side B the padding makes two columns entirely `np.inf`, so no feasible
complete assignment exists: the modelled scipy solver raises
`ValueError: cost matrix is infeasible` and `match` propagates the error
instead of returning the one-match result the specification describes. -/
theorem size_mismatch_raises_infeasible :
    HungarianMatcher.matchEntities [sampleX, sampleZ, sampleW] [sampleY] sampleCriteria =
      Except.error "cost matrix is infeasible" := by
  with_unfolding_all rfl

/-! Generic list lemmas for the optimality proof. -/

theorem sum_map_neg {α : Type} (l : List α) (g : α → ℚ) :
    (l.map (fun x => -(g x))).sum = -((l.map g).sum) := by
  induction l with
  | nil => simp
  | cons a t ih =>
    simp only [List.map_cons, List.sum_cons, ih]
    ring

theorem sublist_sum_le {l₁ l₂ : List ℚ} (h : l₁.Sublist l₂) (h0 : ∀ x ∈ l₂, 0 ≤ x) :
    l₁.sum ≤ l₂.sum := by
  induction h with
  | slnil => exact le_refl 0
  | cons a h ih =>
    rename_i u v
    have := ih (fun x hx => h0 x (List.mem_cons_of_mem _ hx))
    have ha : 0 ≤ a := h0 a (List.mem_cons_self _ _)
    rw [List.sum_cons]
    linarith
  | cons₂ a h ih =>
    have := ih (fun x hx => h0 x (List.mem_cons_of_mem _ hx))
    rw [List.sum_cons, List.sum_cons]
    linarith

theorem nodup_map_sum_le (N : Nat) (s : List (Fin N)) (hnd : s.Nodup) (g : Fin N → ℚ)
    (h0 : ∀ i, 0 ≤ g i) :
    (s.map g).sum ≤ ((List.finRange N).map g).sum := by
  rcases List.subperm_of_subset hnd (fun x _ => List.mem_finRange x) with ⟨l, hperm, hsub⟩
  have hs : (l.map g).sum = (s.map g).sum := (hperm.map g).sum_eq
  rw [← hs]
  exact sublist_sum_le (hsub.map g) (fun x hx => by
    rcases List.mem_map.1 hx with ⟨i, _, rfl⟩
    exact h0 i)

theorem sum_filterMap_map {α β : Type} (l : List α) (F : α → Option β) (val : β → ℚ)
    (g : α → ℚ)
    (h : ∀ a ∈ l, (∃ b, F a = some b ∧ val b = g a) ∨ (F a = none ∧ g a = 0)) :
    ((l.filterMap F).map val).sum = (l.map g).sum := by
  induction l with
  | nil => rfl
  | cons a t ih =>
    have iht := ih (fun x hx => h x (List.mem_cons_of_mem _ hx))
    rcases h a (List.mem_cons_self _ _) with ⟨b, hb, hv⟩ | ⟨hb, hg⟩ <;>
      rw [List.filterMap_cons, hb]
    · simp only [List.map_cons, List.sum_cons, List.map_cons]
      rw [iht, hv]
    · rw [List.map_cons, List.sum_cons, hg, iht, zero_add]

/-! Extension of a partial one-to-one assignment to a permutation, and facts
about the enumerated assignments. -/

theorem exists_perm_extension {N : Nat} (P : List (Fin N × Fin N))
    (h1 : (P.map Prod.fst).Nodup) (h2 : (P.map Prod.snd).Nodup) :
    ∃ σ : Equiv.Perm (Fin N), ∀ p ∈ P, σ p.1 = p.2 := by
  induction P with
  | nil => exact ⟨Equiv.refl _, by simp⟩
  | cons e t ih =>
    rw [List.map_cons, List.nodup_cons] at h1 h2
    rcases ih h1.2 h2.2 with ⟨σ', hσ'⟩
    refine ⟨σ'.trans (Equiv.swap e.2 (σ' e.1)), ?_⟩
    intro p hp
    rcases List.mem_cons.1 hp with rfl | hp'
    · simp only [Equiv.trans_apply]
      exact Equiv.swap_apply_right _ _
    · simp only [Equiv.trans_apply]
      rw [hσ' p hp']
      apply Equiv.swap_apply_of_ne_of_ne
      · intro hc
        exact h2.1 (hc ▸ List.mem_map.2 ⟨p, hp', rfl⟩)
      · intro hc
        have : σ' p.1 = σ' e.1 := by rw [hσ' p hp', hc]
        have hpe : p.1 = e.1 := σ'.injective this
        exact h1.1 (hpe ▸ List.mem_map.2 ⟨p, hp', rfl⟩)

theorem coe_perm_mem_allAssignments {N : Nat} (σ : Equiv.Perm (Fin N)) :
    (⇑σ : Fin N → Fin N) ∈ HungarianMatcher.allAssignments N := by
  rw [HungarianMatcher.allAssignments, List.mem_map]
  refine ⟨(List.finRange N).map σ, ?_, ?_⟩
  · rw [List.mem_permutations]
    apply List.Subperm.perm_of_length_le
    · exact List.subperm_of_subset
        (List.Nodup.map σ.injective (List.nodup_finRange N))
        (fun x _ => List.mem_finRange x)
    · simp
  · funext i
    rw [HungarianMatcher.asFun]
    have hi : i.val < ((List.finRange N).map σ).length := by
      simp [i.isLt]
    rw [List.getD_eq_getElem _ _ hi, List.getElem_map]
    congr 1
    exact Fin.ext (by simp [List.getElem_finRange])

theorem mem_allAssignments_surj {N : Nat} {f : Fin N → Fin N}
    (hf : f ∈ HungarianMatcher.allAssignments N) (v : Fin N) : ∃ i, f i = v := by
  rw [HungarianMatcher.allAssignments, List.mem_map] at hf
  rcases hf with ⟨l, hl, rfl⟩
  rw [List.mem_permutations] at hl
  have hlen : l.length = N := by
    rw [hl.length_eq, List.length_finRange]
  have hv : v ∈ l := hl.mem_iff.2 (List.mem_finRange v)
  rcases List.mem_iff_getElem.1 hv with ⟨k, hk, hkv⟩
  refine ⟨⟨k, by omega⟩, ?_⟩
  rw [HungarianMatcher.asFun]
  rw [List.getD_eq_getElem _ _ (by simpa using hk)]
  exact hkv

theorem lsa_some_spec {N : Nat} {cost : Fin N → Fin N → Option ℚ} {f : Fin N → Fin N}
    (h : HungarianMatcher.linear_sum_assignment N cost = some f) :
    f ∈ HungarianMatcher.allAssignments N ∧ HungarianMatcher.feasibleB N cost f = true ∧
    ∀ g ∈ HungarianMatcher.allAssignments N, HungarianMatcher.feasibleB N cost g = true →
      HungarianMatcher.totalCost N cost f ≤ HungarianMatcher.totalCost N cost g := by
  rw [HungarianMatcher.linear_sum_assignment] at h
  have hmem : f ∈ (HungarianMatcher.allAssignments N).filter
      (HungarianMatcher.feasibleB N cost) := List.argmin_mem h
  have h1 := List.mem_filter.1 hmem
  exact ⟨h1.1, h1.2, fun g hg hfeas =>
    List.le_of_mem_argmin (List.mem_filter.2 ⟨hg, hfeas⟩) h⟩

/-- Claim C1: for non-empty entity lists and a criteria with non-negative
weights, whenever the optimal-assignment matcher returns a result its
`total_score` is at least the total score of every feasible one-to-one
assignment restricted to pairs scoring at or above `min_score` (global
optimality of the returned matching). -/
theorem hungarian_total_score_optimal (entities_a entities_b : List Entity)
    (criteria : Criteria) (res : MatchingResult)
    (hne : entities_a ≠ [] ∧ entities_b ≠ [])
    (hw : ∀ p ∈ criteria.weights, 0 ≤ p.2)
    (hok : HungarianMatcher.matchEntities entities_a entities_b criteria = Except.ok res)
    (P : List (Fin entities_a.length × Fin entities_b.length))
    (hP : FeasibleAssignment entities_a entities_b criteria P) :
    assignmentScore entities_a entities_b criteria P ≤ res.total_score := by
  simp only [HungarianMatcher.matchEntities] at hok
  rw [if_neg (by rintro (h | h); exacts [hne.1 h, hne.2 h])] at hok
  set N := max entities_a.length entities_b.length with hN
  set cost := HungarianMatcher.cost_at entities_a entities_b criteria N with hcost
  cases hlsa : HungarianMatcher.linear_sum_assignment N cost with
  | none =>
    rw [hlsa] at hok
    exact absurd hok (by simp)
  | some f =>
    rw [hlsa] at hok
    obtain ⟨hfmem, hffeas, hfmin⟩ := lsa_some_spec hlsa
    have hnN : entities_a.length = N := by
      have hle : entities_a.length ≤ N := le_max_left _ _
      by_contra hner
      have hlt : entities_a.length < N := lt_of_le_of_ne hle hner
      have hfe := List.all_eq_true.1 hffeas ⟨entities_a.length, hlt⟩ (List.mem_finRange _)
      rw [hcost, HungarianMatcher.cost_at,
        dif_neg (by intro hc; exact absurd hc.1 (lt_irrefl _))] at hfe
      simp at hfe
    have hmN : entities_b.length = N := by
      have hle : entities_b.length ≤ N := le_max_right _ _
      by_contra hner
      have hlt : entities_b.length < N := lt_of_le_of_ne hle hner
      obtain ⟨i, hfi⟩ := mem_allAssignments_surj hfmem ⟨entities_b.length, hlt⟩
      have hfe := List.all_eq_true.1 hffeas i (List.mem_finRange _)
      rw [hcost, HungarianMatcher.cost_at, hfi,
        dif_neg (by intro hc; exact absurd hc.2 (lt_irrefl _))] at hfe
      simp at hfe
    set g : Fin N → Fin N → ℚ := fun i j =>
      HungarianMatcher.calculate_similarity (entities_a.get (Fin.cast hnN.symm i))
        (entities_b.get (Fin.cast hmN.symm j)) criteria with hg
    have hsim : ∀ (i j : Fin N), cost i j = some (-(g i j)) := by
      intro i j
      rw [hcost, HungarianMatcher.cost_at,
        dif_pos ⟨by rw [hnN]; exact i.isLt, by rw [hmN]; exact j.isLt⟩]
      rfl
    have hfeas_all : ∀ t : Fin N → Fin N, HungarianMatcher.feasibleB N cost t = true := by
      intro t
      apply List.all_eq_true.2
      intro i _
      rw [hsim i (t i)]
      rfl
    have htc : ∀ t : Fin N → Fin N, HungarianMatcher.totalCost N cost t =
        -(((List.finRange N).map (fun i => g i (t i))).sum) := by
      intro t
      have hmapeq : (List.finRange N).map (fun i => (cost i (t i)).getD 0)
          = (List.finRange N).map (fun i => -(g i (t i))) := by
        apply List.map_congr_left
        intro i _
        rw [hsim i (t i)]
        rfl
      rw [HungarianMatcher.totalCost, hmapeq, sum_map_neg]
    have hopt : ∀ t : Fin N → Fin N, t ∈ HungarianMatcher.allAssignments N →
        ((List.finRange N).map (fun i => g i (t i))).sum ≤
        ((List.finRange N).map (fun i => g i (f i))).sum := by
      intro t ht
      have hle := hfmin t ht (hfeas_all t)
      rw [htc, htc] at hle
      linarith
    have hgnn : ∀ i j, 0 ≤ g i j := fun i j =>
      hungarian_similarity_nonneg _ _ _ hw
    have htotal : ((((List.finRange N).filterMap
        (HungarianMatcher.decode_at entities_a entities_b criteria N f)).map
          (fun t => t.2.2)).map Match.score).sum
        = ((List.finRange N).map (fun i => g i (f i))).sum := by
      rw [List.map_map]
      apply sum_filterMap_map
      intro i _
      simp only [HungarianMatcher.decode_at]
      rw [dif_pos (⟨by rw [hnN]; exact i.isLt, by rw [hmN]; exact (f i).isLt⟩ :
          i.val < entities_a.length ∧ (f i).val < entities_b.length)]
      split_ifs with hkeep
      · exact Or.inl ⟨_, rfl, rfl⟩
      · refine Or.inr ⟨rfl, ?_⟩
        rcases hungarian_similarity_cases (entities_a.get (Fin.cast hnN.symm i))
            (entities_b.get (Fin.cast hmN.symm (f i))) criteria with h0 | hge
        · exact h0
        · have hnpos : ¬ 0 < g i (f i) := fun hc => hkeep ⟨hc, hge⟩
          exact le_antisymm (not_lt.1 hnpos) (hgnn i (f i))
    have hnd1 : ((P.map (fun p => ((Fin.cast hnN p.1 : Fin N), (Fin.cast hmN p.2 : Fin N)))).map
        Prod.fst).Nodup := by
      rw [List.map_map,
        show (Prod.fst ∘ fun p : Fin entities_a.length × Fin entities_b.length =>
          ((Fin.cast hnN p.1 : Fin N), (Fin.cast hmN p.2 : Fin N)))
          = (Fin.cast hnN) ∘ Prod.fst from rfl,
        ← List.map_map]
      exact List.Nodup.map (Fin.cast_injective hnN) hP.1
    have hnd2 : ((P.map (fun p => ((Fin.cast hnN p.1 : Fin N), (Fin.cast hmN p.2 : Fin N)))).map
        Prod.snd).Nodup := by
      rw [List.map_map,
        show (Prod.snd ∘ fun p : Fin entities_a.length × Fin entities_b.length =>
          ((Fin.cast hnN p.1 : Fin N), (Fin.cast hmN p.2 : Fin N)))
          = (Fin.cast hmN) ∘ Prod.snd from rfl,
        ← List.map_map]
      exact List.Nodup.map (Fin.cast_injective hmN) hP.2.1
    obtain ⟨σ, hσ⟩ := exists_perm_extension
      (P.map (fun p => ((Fin.cast hnN p.1 : Fin N), (Fin.cast hmN p.2 : Fin N)))) hnd1 hnd2
    have hq : ∀ p ∈ P, σ (Fin.cast hnN p.1) = (Fin.cast hmN p.2 : Fin N) := by
      intro p hp
      exact hσ _ (List.mem_map_of_mem _ hp)
    have hstep2 : assignmentScore entities_a entities_b criteria P
        = (P.map (fun p => g (Fin.cast hnN p.1) (σ (Fin.cast hnN p.1)))).sum := by
      rw [assignmentScore]
      congr 1
      apply List.map_congr_left
      intro p hp
      rw [hq p hp]
      rfl
    have hstep3 : (P.map (fun p => g (Fin.cast hnN p.1) (σ (Fin.cast hnN p.1)))).sum ≤
        ((List.finRange N).map (fun i => g i (σ i))).sum := by
      rw [show (fun p : Fin entities_a.length × Fin entities_b.length =>
          g (Fin.cast hnN p.1) (σ (Fin.cast hnN p.1)))
          = (fun i : Fin N => g i (σ i)) ∘ (fun p => (Fin.cast hnN p.1 : Fin N)) from rfl,
        ← List.map_map]
      apply nodup_map_sum_le
      · rw [show (fun p : Fin entities_a.length × Fin entities_b.length =>
            (Fin.cast hnN p.1 : Fin N)) = (Fin.cast hnN) ∘ Prod.fst from rfl,
          ← List.map_map]
        exact List.Nodup.map (Fin.cast_injective hnN) hP.1
      · intro i
        exact hgnn i (σ i)
    have hstep4 := hopt σ (coe_perm_mem_allAssignments σ)
    rw [← Except.ok.inj hok]
    calc assignmentScore entities_a entities_b criteria P
        = (P.map (fun p => g (Fin.cast hnN p.1) (σ (Fin.cast hnN p.1)))).sum := hstep2
      _ ≤ ((List.finRange N).map (fun i => g i (σ i))).sum := hstep3
      _ ≤ ((List.finRange N).map (fun i => g i (f i))).sum := hstep4
      _ = _ := htotal.symm

/-- Witness for C1 at a concrete 1-vs-1 instance: the returned total score 1
bounds the score of the (unique) feasible assignment. -/
theorem hungarian_total_score_optimal_witness :
    (([sampleX] : List Entity) ≠ [] ∧ ([sampleY] : List Entity) ≠ []) ∧
    (∀ p ∈ sampleCriteria.weights, 0 ≤ p.2) ∧
    HungarianMatcher.matchEntities [sampleX] [sampleY] sampleCriteria =
      Except.ok ⟨[Match.mk "X" "Y" 1
        [("algorithm", DetailValue.s "Hungarian Algorithm"),
         ("entity_a_type", DetailValue.s "user"),
         ("entity_b_type", DetailValue.s "user")] none], [], 1, 0⟩ ∧
    FeasibleAssignment [sampleX] [sampleY] sampleCriteria
      [((⟨0, by simp⟩ : Fin [sampleX].length), (⟨0, by simp⟩ : Fin [sampleY].length))] ∧
    assignmentScore [sampleX] [sampleY] sampleCriteria
      [((⟨0, by simp⟩ : Fin [sampleX].length), (⟨0, by simp⟩ : Fin [sampleY].length))] ≤
      (MatchingResult.mk [Match.mk "X" "Y" 1
        [("algorithm", DetailValue.s "Hungarian Algorithm"),
         ("entity_a_type", DetailValue.s "user"),
         ("entity_b_type", DetailValue.s "user")] none] [] 1 0).total_score := by
  have hne : (([sampleX] : List Entity) ≠ [] ∧ ([sampleY] : List Entity) ≠ []) :=
    ⟨by simp, by simp⟩
  have hw : ∀ p ∈ sampleCriteria.weights, 0 ≤ p.2 := by
    rw [show sampleCriteria.weights = [("experience_years", (1:ℚ))] from by
      with_unfolding_all rfl]
    intro p hp
    simp only [List.mem_singleton] at hp
    subst hp
    norm_num
  have hok : HungarianMatcher.matchEntities [sampleX] [sampleY] sampleCriteria =
      Except.ok ⟨[Match.mk "X" "Y" 1
        [("algorithm", DetailValue.s "Hungarian Algorithm"),
         ("entity_a_type", DetailValue.s "user"),
         ("entity_b_type", DetailValue.s "user")] none], [], 1, 0⟩ := by
    with_unfolding_all rfl
  have hfeas : FeasibleAssignment [sampleX] [sampleY] sampleCriteria
      [((⟨0, by simp⟩ : Fin [sampleX].length), (⟨0, by simp⟩ : Fin [sampleY].length))] := by
    refine ⟨by decide, by decide, ?_⟩
    intro p hp
    simp only [List.mem_singleton] at hp
    subst hp
    show sampleCriteria.min_score ≤
      HungarianMatcher.calculate_similarity sampleX sampleY sampleCriteria
    rw [show HungarianMatcher.calculate_similarity sampleX sampleY sampleCriteria = 1 from by
      with_unfolding_all rfl]
    rw [show sampleCriteria.min_score = 1/2 from by with_unfolding_all rfl]
    norm_num
  exact ⟨hne, hw, hok, hfeas,
    hungarian_total_score_optimal [sampleX] [sampleY] sampleCriteria _ hne hw hok _ hfeas⟩

/-! Association-list lemmas over string-keyed engagement dicts. -/

theorem slookup_none_iff {l : List (String × String)} {k : String} :
    List.lookup k l = none ↔ ∀ e ∈ l, e.1 ≠ k := by
  induction l with
  | nil => simp
  | cons e t ih =>
    rw [List.lookup_cons]
    by_cases hk : (k == e.1) = true
    · have hke : k = e.1 := by simpa using hk
      simp only [hk]
      constructor
      · intro h; cases h
      · intro h
        exact absurd hke.symm (h e (List.mem_cons_self _ _))
    · simp only [hk]
      rw [ih]
      constructor
      · intro h
        intro x hx
        rcases List.mem_cons.1 hx with rfl | hx'
        · intro hc
          exact hk (by simp [hc])
        · exact h x hx'
      · intro h x hx
        exact h x (List.mem_cons_of_mem _ hx)

theorem slookup_some_mem {l : List (String × String)} {k v : String}
    (h : List.lookup k l = some v) : (k, v) ∈ l := by
  induction l with
  | nil => simp [List.lookup] at h
  | cons e t ih =>
    rw [List.lookup_cons] at h
    by_cases hk : (k == e.1) = true
    · have hke : k = e.1 := by simpa using hk
      simp only [hk] at h
      cases h
      subst hke
      simp
    · simp only [hk] at h
      exact List.mem_cons_of_mem _ (ih h)

theorem smem_lookup_nodup {l : List (String × String)} (hnd : (l.map Prod.fst).Nodup)
    {k v : String} (h : (k, v) ∈ l) : List.lookup k l = some v := by
  induction l with
  | nil => simp at h
  | cons e t ih =>
    simp only [List.map_cons, List.nodup_cons] at hnd
    rcases List.mem_cons.1 h with h1 | h1
    · subst h1
      simp [List.lookup_cons]
    · have hne : ¬ (k == e.1) = true := by
        intro hc
        have hke : k = e.1 := by simpa using hc
        exact hnd.1 (hke ▸ List.mem_map.2 ⟨(k, v), h1, rfl⟩)
      rw [List.lookup_cons]
      simp only [hne]
      exact ih hnd.2 h1

theorem slookup_append_some {l l' : List (String × String)} {k v : String}
    (h : List.lookup k l = some v) : List.lookup k (l ++ l') = some v := by
  induction l with
  | nil => simp [List.lookup] at h
  | cons e t ih =>
    rw [List.cons_append, List.lookup_cons]
    rw [List.lookup_cons] at h
    by_cases hk : (k == e.1) = true
    · simpa only [hk] using h
    · simp only [hk] at h ⊢
      exact ih h

theorem slookup_append_none {l l' : List (String × String)} {k : String}
    (h : List.lookup k l = none) : List.lookup k (l ++ l') = List.lookup k l' := by
  induction l with
  | nil => simp
  | cons e t ih =>
    rw [List.cons_append, List.lookup_cons]
    rw [List.lookup_cons] at h
    by_cases hk : (k == e.1) = true
    · simp only [hk] at h
      cases h
    · simp only [hk] at h ⊢
      exact ih h

theorem lookup_updateEng_self {l : List (String × String)} {q cur : String}
    (h : List.lookup q l = some cur) (p : String) :
    List.lookup q (GaleShapleyMatcher.updateEng l q p) = some p := by
  induction l with
  | nil => simp [List.lookup] at h
  | cons e t ih =>
    rw [List.lookup_cons] at h
    rw [GaleShapleyMatcher.updateEng, List.map_cons]
    by_cases hk : (q == e.1) = true
    · have hke : q = e.1 := by simpa using hk
      rw [if_pos hke.symm]
      rw [List.lookup_cons]
      simp [hk]
    · have hke : ¬ e.1 = q := by
        intro hc
        exact hk (by simp [hc])
      rw [if_neg hke]
      rw [List.lookup_cons]
      simp only [hk]
      simp only [hk] at h
      exact ih h

theorem lookup_updateEng_other {l : List (String × String)} {q k : String}
    (hne : k ≠ q) (p : String) :
    List.lookup k (GaleShapleyMatcher.updateEng l q p) = List.lookup k l := by
  induction l with
  | nil => rfl
  | cons e t ih =>
    rw [GaleShapleyMatcher.updateEng, List.map_cons]
    by_cases he : e.1 = q
    · rw [if_pos he]
      rw [List.lookup_cons, List.lookup_cons]
      have hkq : ¬ (k == e.1) = true := by
        intro hc
        exact hne (by rw [← he]; simpa using hc)
      simp only [hkq]
      exact ih
    · rw [if_neg he]
      rw [List.lookup_cons, List.lookup_cons]
      by_cases hk : (k == e.1) = true
      · simp [hk]
      · simp only [hk]
        exact ih

theorem updateEng_keys (l : List (String × String)) (q p : String) :
    (GaleShapleyMatcher.updateEng l q p).map Prod.fst = l.map Prod.fst := by
  rw [GaleShapleyMatcher.updateEng, List.map_map]
  apply List.map_congr_left
  intro e _
  by_cases he : e.1 = q
  · simp [he]
  · simp [he]

theorem mem_updateEng {l : List (String × String)} {q p : String} {e : String × String}
    (h : e ∈ GaleShapleyMatcher.updateEng l q p) :
    (e ∈ l ∧ e.1 ≠ q) ∨ (e.1 = q ∧ e.2 = p) := by
  rw [GaleShapleyMatcher.updateEng] at h
  rcases List.mem_map.1 h with ⟨x, hx, rfl⟩
  by_cases hxq : x.1 = q
  · right
    rw [if_pos hxq]
    exact ⟨hxq, rfl⟩
  · left
    rw [if_neg hxq]
    exact ⟨hx, hxq⟩

theorem updateEng_mem_of_mem {l : List (String × String)} {e : String × String}
    (he : e ∈ l) (q p : String) (hne : e.1 ≠ q) :
    e ∈ GaleShapleyMatcher.updateEng l q p := by
  rw [GaleShapleyMatcher.updateEng]
  refine List.mem_map.2 ⟨e, he, ?_⟩
  rw [if_neg hne]

theorem updateEng_cons (e : String × String) (t : List (String × String)) (q p : String) :
    GaleShapleyMatcher.updateEng (e :: t) q p =
      (if e.1 = q then (e.1, p) else e) :: GaleShapleyMatcher.updateEng t q p := rfl

theorem updateEng_values_nodup {l : List (String × String)} {q p : String}
    (hk : (l.map Prod.fst).Nodup) (hv : (l.map Prod.snd).Nodup)
    (hp : ∀ e ∈ l, e.2 ≠ p) :
    ((GaleShapleyMatcher.updateEng l q p).map Prod.snd).Nodup := by
  induction l with
  | nil => simp [GaleShapleyMatcher.updateEng]
  | cons e t ih =>
    rw [List.map_cons, List.nodup_cons] at hk hv
    rw [updateEng_cons, List.map_cons, List.nodup_cons]
    by_cases he : e.1 = q
    · rw [if_pos he]
      have htid : GaleShapleyMatcher.updateEng t q p = t := by
        rw [GaleShapleyMatcher.updateEng]
        have hall : ∀ x ∈ t, (if x.1 = q then (x.1, p) else x) = x := by
          intro x hx
          have hxq : x.1 ≠ q := by
            intro hc
            exact hk.1 (he ▸ hc ▸ List.mem_map.2 ⟨x, hx, rfl⟩)
          rw [if_neg hxq]
        rw [List.map_congr_left hall]
        simp
      rw [htid]
      constructor
      · intro hc
        rcases List.mem_map.1 hc with ⟨x, hx, hxp⟩
        exact hp x (List.mem_cons_of_mem _ hx) hxp
      · exact hv.2
    · rw [if_neg he]
      constructor
      · intro hc
        rcases List.mem_map.1 hc with ⟨y, hy, hye⟩
        rcases mem_updateEng hy with ⟨hyl, _⟩ | ⟨_, hyp⟩
        · exact hv.1 (hye ▸ List.mem_map.2 ⟨y, hyl, rfl⟩)
        · exact hp e (List.mem_cons_self _ _) (by rw [← hye, hyp])
      · exact ih hk.2 hv.2 (fun x hx => hp x (List.mem_cons_of_mem _ hx))

theorem map_sum_congr_except (A : List String) (hA : A.Nodup) (p : String) (hp : p ∈ A)
    (F G : String → Nat) (heq : ∀ x ∈ A, x ≠ p → G x = F x) :
    (A.map G).sum + F p = (A.map F).sum + G p := by
  induction A with
  | nil => cases hp
  | cons a t ih =>
    rw [List.map_cons, List.map_cons, List.sum_cons, List.sum_cons]
    rcases List.mem_cons.1 hp with rfl | hpt
    · have htt : t.map G = t.map F := by
        apply List.map_congr_left
        intro x hx
        exact heq x (List.mem_cons_of_mem _ hx) (by
          rintro rfl
          exact (List.nodup_cons.1 hA).1 hx)
      rw [htt]
      omega
    · have hne : a ≠ p := by
        rintro rfl
        exact (List.nodup_cons.1 hA).1 hpt
      rw [heq a (List.mem_cons_self _ _) hne]
      have := ih (List.nodup_cons.1 hA).2 hpt
        (fun x hx hxp => heq x (List.mem_cons_of_mem _ hx) hxp)
      omega

/-! The four outcomes of one loop iteration, as equations on `gsStep`. -/

theorem gsStep_exhaust (prefs : String → List String) (st : GaleShapleyMatcher.GSState)
    (p : String) (rest : List String) (h : (prefs p).length ≤ st.index p) :
    GaleShapleyMatcher.gsStep prefs st p rest = { st with free := rest } := by
  rw [GaleShapleyMatcher.gsStep, if_pos h]

theorem gsStep_engage (prefs : String → List String) (st : GaleShapleyMatcher.GSState)
    (p : String) (rest : List String) (h : ¬ (prefs p).length ≤ st.index p)
    (hlk : List.lookup ((prefs p).getD (st.index p) "") st.engagements = none) :
    GaleShapleyMatcher.gsStep prefs st p rest =
      ⟨rest, st.engagements ++ [((prefs p).getD (st.index p) "", p)],
       fun x => if x = p then st.index p + 1 else st.index x, st.proposals + 1⟩ := by
  rw [GaleShapleyMatcher.gsStep, if_neg h]
  simp only [hlk]

theorem gsStep_swap (prefs : String → List String) (st : GaleShapleyMatcher.GSState)
    (p : String) (rest : List String) (cur : String) (h : ¬ (prefs p).length ≤ st.index p)
    (hlk : List.lookup ((prefs p).getD (st.index p) "") st.engagements = some cur)
    (hcmp : List.indexOf p (prefs ((prefs p).getD (st.index p) "")) <
      List.indexOf cur (prefs ((prefs p).getD (st.index p) ""))) :
    GaleShapleyMatcher.gsStep prefs st p rest =
      ⟨rest ++ [cur],
       GaleShapleyMatcher.updateEng st.engagements ((prefs p).getD (st.index p) "") p,
       fun x => if x = p then st.index p + 1 else st.index x, st.proposals + 1⟩ := by
  rw [GaleShapleyMatcher.gsStep, if_neg h]
  simp only [hlk]
  rw [if_pos hcmp]

theorem gsStep_reject (prefs : String → List String) (st : GaleShapleyMatcher.GSState)
    (p : String) (rest : List String) (cur : String) (h : ¬ (prefs p).length ≤ st.index p)
    (hlk : List.lookup ((prefs p).getD (st.index p) "") st.engagements = some cur)
    (hcmp : ¬ List.indexOf p (prefs ((prefs p).getD (st.index p) "")) <
      List.indexOf cur (prefs ((prefs p).getD (st.index p) ""))) :
    GaleShapleyMatcher.gsStep prefs st p rest =
      { st with index := fun x => if x = p then st.index p + 1 else st.index x,
                proposals := st.proposals + 1 } := by
  rw [GaleShapleyMatcher.gsStep, if_neg h]
  simp only [hlk]
  rw [if_neg hcmp]

theorem gsInv_exhaust (A B : List String) (prefs : String → List String)
    (st : GaleShapleyMatcher.GSState) (p : String) (rest : List String)
    (hfree : st.free = p :: rest) (hinv : GSInv A B prefs st)
    (hex : (prefs p).length ≤ st.index p) :
    GSInv A B prefs ({ st with free := rest }) ∧
    GaleShapleyMatcher.gsMeasure A prefs ({ st with free := rest }) <
      GaleShapleyMatcher.gsMeasure A prefs st := by
  have hfree_nodup := hinv.free_nodup
  rw [hfree] at hfree_nodup
  constructor
  · refine ⟨?_, (List.nodup_cons.1 hfree_nodup).2, hinv.keys_nodup, hinv.keys_B,
      hinv.vals_A, hinv.vals_nodup, ?_, ?_, hinv.history, hinv.partner_last,
      hinv.props_eq, hinv.index_le⟩
    · intro x hx
      exact hinv.free_sub x (hfree ▸ List.mem_cons_of_mem _ hx)
    · intro x hx
      exact hinv.free_not_val x (hfree ▸ List.mem_cons_of_mem _ hx)
    · intro x hx
      rcases hinv.partition x hx with hxf | hxe | hxi
    
      · rw [hfree] at hxf
        rcases List.mem_cons.1 hxf with rfl | hxr
        · exact Or.inr (Or.inr hex)
        · exact Or.inl hxr
      · exact Or.inr (Or.inl hxe)
      · exact Or.inr (Or.inr hxi)
  · rw [GaleShapleyMatcher.gsMeasure, GaleShapleyMatcher.gsMeasure, hfree]
    simp

theorem gsInv_engage (A B : List String) (prefs : String → List String)
    (hA : A.Nodup) (hpB : ∀ x ∈ A, ∀ q ∈ prefs x, q ∈ B)
    (st : GaleShapleyMatcher.GSState) (p : String) (rest : List String)
    (hfree : st.free = p :: rest) (hinv : GSInv A B prefs st)
    (hex : ¬ (prefs p).length ≤ st.index p)
    (hlk : List.lookup ((prefs p).getD (st.index p) "") st.engagements = none) :
    GSInv A B prefs (⟨rest, st.engagements ++ [((prefs p).getD (st.index p) "", p)],
       fun x => if x = p then st.index p + 1 else st.index x, st.proposals + 1⟩) ∧
    GaleShapleyMatcher.gsMeasure A prefs
      (⟨rest, st.engagements ++ [((prefs p).getD (st.index p) "", p)],
       fun x => if x = p then st.index p + 1 else st.index x, st.proposals + 1⟩) <
      GaleShapleyMatcher.gsMeasure A prefs st := by
  set q := (prefs p).getD (st.index p) "" with hqdef
  have hi : st.index p < (prefs p).length := not_le.1 hex
  have hq_get : q = (prefs p).get ⟨st.index p, hi⟩ := by
    rw [hqdef, List.getD_eq_getElem _ _ hi, List.get_eq_getElem]
  have hpA : p ∈ A := hinv.free_sub p (hfree ▸ List.mem_cons_self _ _)
  have hfree_nodup := hinv.free_nodup
  rw [hfree] at hfree_nodup
  have hp_rest : p ∉ rest := (List.nodup_cons.1 hfree_nodup).1
  have hrest_nodup : rest.Nodup := (List.nodup_cons.1 hfree_nodup).2
  have hp_notval : ∀ e ∈ st.engagements, e.2 ≠ p :=
    hinv.free_not_val p (hfree ▸ List.mem_cons_self _ _)
  have hq_mem : q ∈ prefs p := by
    rw [hq_get]
    exact List.get_mem _ _ _
  have hqB : q ∈ B := hpB p hpA q hq_mem
  have hq_notkey : ∀ e ∈ st.engagements, e.1 ≠ q := slookup_none_iff.1 hlk
  have hip : (if p = p then st.index p + 1 else st.index p) = st.index p + 1 := if_pos rfl
  constructor
  · refine ⟨?_, hrest_nodup, ?_, ?_, ?_, ?_, ?_, ?_, ?_, ?_, ?_, ?_⟩
    · intro x hx
      exact hinv.free_sub x (hfree ▸ List.mem_cons_of_mem _ hx)
    · rw [List.map_append, List.nodup_append]
      refine ⟨hinv.keys_nodup, by simp, ?_⟩
      intro x hx
      rcases List.mem_map.1 hx with ⟨e, he, rfl⟩
      simp only [List.map_cons, List.map_nil, List.mem_singleton]
      exact hq_notkey e he
    · intro e he
      rcases List.mem_append.1 he with he1 | he1
      · exact hinv.keys_B e he1
      · rw [List.mem_singleton] at he1
        subst he1
        exact hqB
    · intro e he
      rcases List.mem_append.1 he with he1 | he1
      · exact hinv.vals_A e he1
      · rw [List.mem_singleton] at he1
        subst he1
        exact hpA
    · rw [List.map_append, List.nodup_append]
      refine ⟨hinv.vals_nodup, by simp, ?_⟩
      intro x hx
      rcases List.mem_map.1 hx with ⟨e, he, rfl⟩
      simp only [List.map_cons, List.map_nil, List.mem_singleton]
      exact hp_notval e he
    · intro x hx e he
      rcases List.mem_append.1 he with he1 | he1
      · exact hinv.free_not_val x (hfree ▸ List.mem_cons_of_mem _ hx) e he1
      · rw [List.mem_singleton] at he1
        subst he1
        intro hc
        have hpx : p = x := hc
        exact hp_rest (hpx ▸ hx)
    · intro x hx
      by_cases hxp : x = p
      · subst hxp
        exact Or.inr (Or.inl ⟨(q, x), by simp, rfl⟩)
      · rcases hinv.partition x hx with hxf | ⟨e, he, hev⟩ | hxi
        · rw [hfree] at hxf
          rcases List.mem_cons.1 hxf with rfl | hxr
          · exact absurd rfl hxp
          · exact Or.inl hxr
        · exact Or.inr (Or.inl ⟨e, List.mem_append_left _ he, hev⟩)
        · refine Or.inr (Or.inr ?_)
          show (prefs x).length ≤ if x = p then st.index p + 1 else st.index x
          rw [if_neg hxp]
          exact hxi
    · intro x hxA k hk hklen
      by_cases hxp : x = p
      · subst hxp
        replace hk : k < (if x = x then st.index x + 1 else st.index x) := hk
        rw [show (if x = x then st.index x + 1 else st.index x) = st.index x + 1
          from if_pos rfl] at hk
        by_cases hki : k < st.index x
        · obtain ⟨p', hp1, hp2⟩ := hinv.history x hxA k hki hklen
          exact ⟨p', slookup_append_some hp1, hp2⟩
        · have hkeq : k = st.index x := by omega
          subst hkeq
          refine ⟨x, ?_, le_refl _⟩
          have hgq : (prefs x).get ⟨st.index x, hklen⟩ = q := hq_get.symm
          rw [hgq, slookup_append_none hlk, List.lookup_cons]
          simp
      · replace hk : k < (if x = p then st.index p + 1 else st.index x) := hk
        rw [show (if x = p then st.index p + 1 else st.index x) = st.index x
          from if_neg hxp] at hk
        obtain ⟨p', hp1, hp2⟩ := hinv.history x hxA k hk hklen
        exact ⟨p', slookup_append_some hp1, hp2⟩
    · intro e he
      rcases List.mem_append.1 he with he1 | he1
      · have hep : e.2 ≠ p := hp_notval e he1
        obtain ⟨hk1, hk2, hk3⟩ := hinv.partner_last e he1
        simp only [show (if e.2 = p then st.index p + 1 else st.index e.2) = st.index e.2
          from if_neg hep]
        exact ⟨hk1, hk2, hk3⟩
      · rw [List.mem_singleton] at he1
        subst he1
        show ∃ hk : (if p = p then st.index p + 1 else st.index p) - 1 < (prefs p).length,
          0 < (if p = p then st.index p + 1 else st.index p) ∧
          (prefs p).get ⟨(if p = p then st.index p + 1 else st.index p) - 1, hk⟩ = q
        simp only [hip, Nat.add_sub_cancel]
        exact ⟨hi, Nat.succ_pos _, hq_get.symm⟩
    · show st.proposals + 1 = (A.map (fun x => if x = p then st.index p + 1 else st.index x)).sum
      have hsum := map_sum_congr_except A hA p hpA st.index
        (fun x => if x = p then st.index p + 1 else st.index x)
        (fun x _ hxp => if_neg hxp)
      simp only [eq_self_iff_true, if_true] at hsum
      rw [hinv.props_eq]
      omega
    · intro x hx
      by_cases hxp : x = p
      · subst hxp
        show (if x = x then st.index x + 1 else st.index x) ≤ (prefs x).length
        rw [if_pos rfl]
        omega
      · show (if x = p then st.index p + 1 else st.index x) ≤ (prefs x).length
        rw [if_neg hxp]
        exact hinv.index_le x hx
  · rw [GaleShapleyMatcher.gsMeasure, GaleShapleyMatcher.gsMeasure, hfree]
    show (A.map (fun x => (prefs x).length -
        (if x = p then st.index p + 1 else st.index x))).sum + rest.length <
      (A.map (fun x => (prefs x).length - st.index x)).sum + (p :: rest).length
    have hsum := map_sum_congr_except A hA p hpA
      (fun x => (prefs x).length - st.index x)
      (fun x => (prefs x).length - (if x = p then st.index p + 1 else st.index x))
      (fun x _ hxp => by simp only [if_neg hxp])
    simp only [eq_self_iff_true, if_true] at hsum
    simp only [List.length_cons]
    omega

theorem gsInv_swap (A B : List String) (prefs : String → List String)
    (hA : A.Nodup) (hpB : ∀ x ∈ A, ∀ q ∈ prefs x, q ∈ B)
    (st : GaleShapleyMatcher.GSState) (p : String) (rest : List String) (cur : String)
    (hfree : st.free = p :: rest) (hinv : GSInv A B prefs st)
    (hex : ¬ (prefs p).length ≤ st.index p)
    (hlk : List.lookup ((prefs p).getD (st.index p) "") st.engagements = some cur)
    (hcmp : List.indexOf p (prefs ((prefs p).getD (st.index p) "")) <
      List.indexOf cur (prefs ((prefs p).getD (st.index p) ""))) :
    GSInv A B prefs (⟨rest ++ [cur],
       GaleShapleyMatcher.updateEng st.engagements ((prefs p).getD (st.index p) "") p,
       fun x => if x = p then st.index p + 1 else st.index x, st.proposals + 1⟩) ∧
    GaleShapleyMatcher.gsMeasure A prefs (⟨rest ++ [cur],
       GaleShapleyMatcher.updateEng st.engagements ((prefs p).getD (st.index p) "") p,
       fun x => if x = p then st.index p + 1 else st.index x, st.proposals + 1⟩) <
      GaleShapleyMatcher.gsMeasure A prefs st := by
  set q := (prefs p).getD (st.index p) "" with hqdef
  have hi : st.index p < (prefs p).length := not_le.1 hex
  have hq_get : q = (prefs p).get ⟨st.index p, hi⟩ := by
    rw [hqdef, List.getD_eq_getElem _ _ hi, List.get_eq_getElem]
  have hq_mem : q ∈ prefs p := by
    rw [hq_get]
    exact List.get_mem _ _ _
  have hpA : p ∈ A := hinv.free_sub p (hfree ▸ List.mem_cons_self _ _)
  have hqB : q ∈ B := hpB p hpA q hq_mem
  have hfree_nodup := hinv.free_nodup
  rw [hfree] at hfree_nodup
  have hp_rest : p ∉ rest := (List.nodup_cons.1 hfree_nodup).1
  have hrest_nodup : rest.Nodup := (List.nodup_cons.1 hfree_nodup).2
  have hp_notval : ∀ e ∈ st.engagements, e.2 ≠ p :=
    hinv.free_not_val p (hfree ▸ List.mem_cons_self _ _)
  have hqpair : (q, cur) ∈ st.engagements := slookup_some_mem hlk
  have hcurA : cur ∈ A := hinv.vals_A _ hqpair
  have hcur_rest : cur ∉ rest := fun hc =>
    hinv.free_not_val cur (hfree ▸ List.mem_cons_of_mem _ hc) (q, cur) hqpair rfl
  have hpcur : p ≠ cur := fun hc =>
    hp_notval (q, cur) hqpair hc.symm
  have huniq_key : ∀ e ∈ st.engagements, e.1 = q → e = (q, cur) := by
    intro e he h1
    exact List.inj_on_of_nodup_map hinv.keys_nodup he hqpair h1
  have huniq_val : ∀ e ∈ st.engagements, e.2 = cur → e = (q, cur) := by
    intro e he h2
    exact List.inj_on_of_nodup_map hinv.vals_nodup he hqpair h2
  have hpatch : ∀ (q₀ p' : String), List.lookup q₀ st.engagements = some p' →
      ∀ x', List.indexOf p' (prefs q₀) ≤ List.indexOf x' (prefs q₀) →
      ∃ p'', List.lookup q₀ (GaleShapleyMatcher.updateEng st.engagements q p) = some p'' ∧
        List.indexOf p'' (prefs q₀) ≤ List.indexOf x' (prefs q₀) := by
    intro q₀ p' hq₀ x' hrank
    by_cases hq₀q : q₀ = q
    · subst hq₀q
      have hpc : p' = cur := Option.some.inj (hq₀.symm.trans hlk)
      refine ⟨p, lookup_updateEng_self hq₀ p, ?_⟩
      exact le_trans (le_of_lt hcmp) (by rw [← hpc]; exact hrank)
    · exact ⟨p', by rw [lookup_updateEng_other hq₀q]; exact hq₀, hrank⟩
  have hip : (if p = p then st.index p + 1 else st.index p) = st.index p + 1 := if_pos rfl
  constructor
  · refine ⟨?_, ?_, ?_, ?_, ?_, ?_, ?_, ?_, ?_, ?_, ?_, ?_⟩
    · intro x hx
      rcases List.mem_append.1 hx with hx1 | hx1
      · exact hinv.free_sub x (hfree ▸ List.mem_cons_of_mem _ hx1)
      · rw [List.mem_singleton] at hx1
        subst hx1
        exact hcurA
    · rw [List.nodup_append]
      exact ⟨hrest_nodup, by simp, by
        intro x hx
        simp only [List.mem_singleton]
        intro hc
        exact hcur_rest (hc ▸ hx)⟩
    · rw [updateEng_keys]
      exact hinv.keys_nodup
    · intro e he
      rcases mem_updateEng he with ⟨he1, _⟩ | ⟨he1, _⟩
      · exact hinv.keys_B e he1
      · rw [he1]
        exact hqB
    · intro e he
      rcases mem_updateEng he with ⟨he1, _⟩ | ⟨_, he2⟩
      · exact hinv.vals_A e he1
      · rw [he2]
        exact hpA
    · exact updateEng_values_nodup hinv.keys_nodup hinv.vals_nodup hp_notval
    · intro x hx e he
      rcases List.mem_append.1 hx with hx1 | hx1
      · rcases mem_updateEng he with ⟨he1, _⟩ | ⟨_, he2⟩
        · exact hinv.free_not_val x (hfree ▸ List.mem_cons_of_mem _ hx1) e he1
        · rw [he2]
          intro hc
          exact hp_rest (hc ▸ hx1)
      · rw [List.mem_singleton] at hx1
        subst hx1
        rcases mem_updateEng he with ⟨he1, hne⟩ | ⟨_, he2⟩
        · intro hc
          exact hne (congrArg Prod.fst (huniq_val e he1 hc))
        · rw [he2]
          exact hpcur
    · intro x hx
      by_cases hxp : x = p
      · subst hxp
        refine Or.inr (Or.inl ⟨(q, x), List.mem_map.2 ⟨(q, cur), hqpair, ?_⟩, rfl⟩)
        rw [if_pos rfl]
      · by_cases hxc : x = cur
        · subst hxc
          exact Or.inl (List.mem_append_right _ (List.mem_singleton.2 rfl))
        · rcases hinv.partition x hx with hxf | ⟨e, he, hev⟩ | hxi
          · rw [hfree] at hxf
            rcases List.mem_cons.1 hxf with rfl | hxr
            · exact absurd rfl hxp
            · exact Or.inl (List.mem_append_left _ hxr)
          · have heq : e.1 ≠ q := by
              intro hc
              exact hxc (by rw [← hev, huniq_key e he hc])
            exact Or.inr (Or.inl ⟨e, updateEng_mem_of_mem he q p heq, hev⟩)
          · refine Or.inr (Or.inr ?_)
            show (prefs x).length ≤ if x = p then st.index p + 1 else st.index x
            rw [if_neg hxp]
            exact hxi
    · intro x hxA k hk hklen
      by_cases hxp : x = p
      · subst hxp
        replace hk : k < (if x = x then st.index x + 1 else st.index x) := hk
        rw [show (if x = x then st.index x + 1 else st.index x) = st.index x + 1
          from if_pos rfl] at hk
        by_cases hki : k < st.index x
        · obtain ⟨p', hp1, hp2⟩ := hinv.history x hxA k hki hklen
          exact hpatch _ p' hp1 x hp2
        · have hkeq : k = st.index x := by omega
          subst hkeq
          have hgq : (prefs x).get ⟨st.index x, hklen⟩ = q := hq_get.symm
          rw [hgq]
          exact ⟨x, lookup_updateEng_self hlk x, le_refl _⟩
      · replace hk : k < (if x = p then st.index p + 1 else st.index x) := hk
        rw [show (if x = p then st.index p + 1 else st.index x) = st.index x
          from if_neg hxp] at hk
        obtain ⟨p', hp1, hp2⟩ := hinv.history x hxA k hk hklen
        exact hpatch _ p' hp1 x hp2
    · intro e he
      rcases mem_updateEng he with ⟨he1, _⟩ | ⟨he1, he2⟩
      · have hep : e.2 ≠ p := hp_notval e he1
        obtain ⟨hk1, hk2, hk3⟩ := hinv.partner_last e he1
        simp only [show (if e.2 = p then st.index p + 1 else st.index e.2) = st.index e.2
          from if_neg hep]
        exact ⟨hk1, hk2, hk3⟩
      · have he' : e = (q, p) := Prod.ext he1 he2
        subst he'
        show ∃ hk : (if p = p then st.index p + 1 else st.index p) - 1 < (prefs p).length,
          0 < (if p = p then st.index p + 1 else st.index p) ∧
          (prefs p).get ⟨(if p = p then st.index p + 1 else st.index p) - 1, hk⟩ = q
        simp only [hip, Nat.add_sub_cancel]
        exact ⟨hi, Nat.succ_pos _, hq_get.symm⟩
    · show st.proposals + 1 =
        (A.map (fun x => if x = p then st.index p + 1 else st.index x)).sum
      have hsum := map_sum_congr_except A hA p hpA st.index
        (fun x => if x = p then st.index p + 1 else st.index x)
        (fun x _ hxp => if_neg hxp)
      simp only [eq_self_iff_true, if_true] at hsum
      rw [hinv.props_eq]
      omega
    · intro x hx
      by_cases hxp : x = p
      · subst hxp
        show (if x = x then st.index x + 1 else st.index x) ≤ (prefs x).length
        rw [if_pos rfl]
        omega
      · show (if x = p then st.index p + 1 else st.index x) ≤ (prefs x).length
        rw [if_neg hxp]
        exact hinv.index_le x hx
  · rw [GaleShapleyMatcher.gsMeasure, GaleShapleyMatcher.gsMeasure, hfree]
    show (A.map (fun x => (prefs x).length -
        (if x = p then st.index p + 1 else st.index x))).sum + (rest ++ [cur]).length <
      (A.map (fun x => (prefs x).length - st.index x)).sum + (p :: rest).length
    have hsum := map_sum_congr_except A hA p hpA
      (fun x => (prefs x).length - st.index x)
      (fun x => (prefs x).length - (if x = p then st.index p + 1 else st.index x))
      (fun x _ hxp => by simp only [if_neg hxp])
    simp only [eq_self_iff_true, if_true] at hsum
    have hlen : (rest ++ [cur]).length = (p :: rest).length := by
      simp [List.length_append, List.length_cons]
    rw [hlen]
    apply Nat.add_lt_add_right
    have h1 : (prefs p).length - st.index p = ((prefs p).length - (st.index p + 1)) + 1 := by
      omega
    rw [h1, ← Nat.add_assoc] at hsum
    have h2 : (List.map (fun x => (prefs x).length -
        (if x = p then st.index p + 1 else st.index x)) A).sum
        + ((prefs p).length - (st.index p + 1))
        < (List.map (fun x => (prefs x).length - st.index x) A).sum
        + ((prefs p).length - (st.index p + 1)) := hsum ▸ Nat.lt_succ_self _
    exact Nat.lt_of_add_lt_add_right h2

theorem gsInv_reject (A B : List String) (prefs : String → List String)
    (hA : A.Nodup) (hpB : ∀ x ∈ A, ∀ q ∈ prefs x, q ∈ B)
    (st : GaleShapleyMatcher.GSState) (p : String) (rest : List String) (cur : String)
    (hfree : st.free = p :: rest) (hinv : GSInv A B prefs st)
    (hex : ¬ (prefs p).length ≤ st.index p)
    (hlk : List.lookup ((prefs p).getD (st.index p) "") st.engagements = some cur)
    (hcmp : ¬ List.indexOf p (prefs ((prefs p).getD (st.index p) "")) <
      List.indexOf cur (prefs ((prefs p).getD (st.index p) ""))) :
    GSInv A B prefs ({ st with
       index := fun x => if x = p then st.index p + 1 else st.index x,
       proposals := st.proposals + 1 }) ∧
    GaleShapleyMatcher.gsMeasure A prefs ({ st with
       index := fun x => if x = p then st.index p + 1 else st.index x,
       proposals := st.proposals + 1 }) <
      GaleShapleyMatcher.gsMeasure A prefs st := by
  set q := (prefs p).getD (st.index p) "" with hqdef
  have hi : st.index p < (prefs p).length := not_le.1 hex
  have hq_get : q = (prefs p).get ⟨st.index p, hi⟩ := by
    rw [hqdef, List.getD_eq_getElem _ _ hi, List.get_eq_getElem]
  have hpA : p ∈ A := hinv.free_sub p (hfree ▸ List.mem_cons_self _ _)
  have hp_notval : ∀ e ∈ st.engagements, e.2 ≠ p :=
    hinv.free_not_val p (hfree ▸ List.mem_cons_self _ _)
  constructor
  · refine ⟨hinv.free_sub, hinv.free_nodup, hinv.keys_nodup, hinv.keys_B,
      hinv.vals_A, hinv.vals_nodup, hinv.free_not_val, ?_, ?_, ?_, ?_, ?_⟩
    · intro x hx
      rcases hinv.partition x hx with hxf | hxe | hxi
      · exact Or.inl hxf
      · exact Or.inr (Or.inl hxe)
      · refine Or.inr (Or.inr ?_)
        show (prefs x).length ≤ if x = p then st.index p + 1 else st.index x
        by_cases hxp : x = p
        · subst hxp
          rw [if_pos rfl]
          omega
        · rw [if_neg hxp]
          exact hxi
    · intro x hxA k hk hklen
      by_cases hxp : x = p
      · subst hxp
        replace hk : k < (if x = x then st.index x + 1 else st.index x) := hk
        rw [show (if x = x then st.index x + 1 else st.index x) = st.index x + 1
          from if_pos rfl] at hk
        by_cases hki : k < st.index x
        · exact hinv.history x hxA k hki hklen
        · have hkeq : k = st.index x := by omega
          subst hkeq
          have hgq : (prefs x).get ⟨st.index x, hklen⟩ = q := hq_get.symm
          rw [hgq]
          exact ⟨cur, hlk, not_lt.1 hcmp⟩
      · replace hk : k < (if x = p then st.index p + 1 else st.index x) := hk
        rw [show (if x = p then st.index p + 1 else st.index x) = st.index x
          from if_neg hxp] at hk
        exact hinv.history x hxA k hk hklen
    · intro e he
      have hep : e.2 ≠ p := hp_notval e he
      obtain ⟨hk1, hk2, hk3⟩ := hinv.partner_last e he
      simp only [show (if e.2 = p then st.index p + 1 else st.index e.2) = st.index e.2
        from if_neg hep]
      exact ⟨hk1, hk2, hk3⟩
    · show st.proposals + 1 =
        (A.map (fun x => if x = p then st.index p + 1 else st.index x)).sum
      have hsum := map_sum_congr_except A hA p hpA st.index
        (fun x => if x = p then st.index p + 1 else st.index x)
        (fun x _ hxp => if_neg hxp)
      simp only [eq_self_iff_true, if_true] at hsum
      rw [hinv.props_eq]
      omega
    · intro x hx
      by_cases hxp : x = p
      · subst hxp
        show (if x = x then st.index x + 1 else st.index x) ≤ (prefs x).length
        rw [if_pos rfl]
        omega
      · show (if x = p then st.index p + 1 else st.index x) ≤ (prefs x).length
        rw [if_neg hxp]
        exact hinv.index_le x hx
  · rw [GaleShapleyMatcher.gsMeasure, GaleShapleyMatcher.gsMeasure]
    show (A.map (fun x => (prefs x).length -
        (if x = p then st.index p + 1 else st.index x))).sum + st.free.length <
      (A.map (fun x => (prefs x).length - st.index x)).sum + st.free.length
    apply Nat.add_lt_add_right
    have hsum := map_sum_congr_except A hA p hpA
      (fun x => (prefs x).length - st.index x)
      (fun x => (prefs x).length - (if x = p then st.index p + 1 else st.index x))
      (fun x _ hxp => by simp only [if_neg hxp])
    simp only [eq_self_iff_true, if_true] at hsum
    have h1 : (prefs p).length - st.index p = ((prefs p).length - (st.index p + 1)) + 1 := by
      omega
    rw [h1, ← Nat.add_assoc] at hsum
    have h2 : (List.map (fun x => (prefs x).length -
        (if x = p then st.index p + 1 else st.index x)) A).sum
        + ((prefs p).length - (st.index p + 1))
        < (List.map (fun x => (prefs x).length - st.index x) A).sum
        + ((prefs p).length - (st.index p + 1)) := hsum ▸ Nat.lt_succ_self _
    exact Nat.lt_of_add_lt_add_right h2

theorem gsLoop_correct (A B : List String) (prefs : String → List String)
    (hA : A.Nodup) (hpB : ∀ x ∈ A, ∀ q ∈ prefs x, q ∈ B) :
    ∀ (fuel : Nat) (st : GaleShapleyMatcher.GSState), GSInv A B prefs st →
      GaleShapleyMatcher.gsMeasure A prefs st ≤ fuel →
      GSInv A B prefs (GaleShapleyMatcher.gsLoop prefs fuel st) ∧
      (GaleShapleyMatcher.gsLoop prefs fuel st).free = [] := by
  intro fuel
  induction fuel with
  | zero =>
    intro st hinv hm
    have hlen : st.free.length = 0 := by
      rw [GaleShapleyMatcher.gsMeasure] at hm
      omega
    rw [GaleShapleyMatcher.gsLoop]
    exact ⟨hinv, List.length_eq_zero.1 hlen⟩
  | succ n ih =>
    intro st hinv hm
    cases hst : st.free with
    | nil =>
      have hred : GaleShapleyMatcher.gsLoop prefs (n + 1) st = st := by
        rw [GaleShapleyMatcher.gsLoop, hst]
      rw [hred]
      exact ⟨hinv, hst⟩
    | cons p rest =>
      have hred : GaleShapleyMatcher.gsLoop prefs (n + 1) st =
          GaleShapleyMatcher.gsLoop prefs n (GaleShapleyMatcher.gsStep prefs st p rest) := by
        rw [GaleShapleyMatcher.gsLoop, hst]
      rw [hred]
      by_cases hex : (prefs p).length ≤ st.index p
      · obtain ⟨hinv', hlt⟩ := gsInv_exhaust A B prefs st p rest hst hinv hex
        rw [gsStep_exhaust prefs st p rest hex]
        exact ih _ hinv' (Nat.lt_succ_iff.1 (lt_of_lt_of_le hlt hm))
      · cases hlk : List.lookup ((prefs p).getD (st.index p) "") st.engagements with
        | none =>
          obtain ⟨hinv', hlt⟩ := gsInv_engage A B prefs hA hpB st p rest hst hinv hex hlk
          rw [gsStep_engage prefs st p rest hex hlk]
          exact ih _ hinv' (Nat.lt_succ_iff.1 (lt_of_lt_of_le hlt hm))
        | some cur =>
          by_cases hcmp : List.indexOf p (prefs ((prefs p).getD (st.index p) "")) <
              List.indexOf cur (prefs ((prefs p).getD (st.index p) ""))
          · obtain ⟨hinv', hlt⟩ :=
              gsInv_swap A B prefs hA hpB st p rest cur hst hinv hex hlk hcmp
            rw [gsStep_swap prefs st p rest cur hex hlk hcmp]
            exact ih _ hinv' (Nat.lt_succ_iff.1 (lt_of_lt_of_le hlt hm))
          · obtain ⟨hinv', hlt⟩ :=
              gsInv_reject A B prefs hA hpB st p rest cur hst hinv hex hlk hcmp
            rw [gsStep_reject prefs st p rest cur hex hlk hcmp]
            exact ih _ hinv' (Nat.lt_succ_iff.1 (lt_of_lt_of_le hlt hm))

theorem dictGet_eq_of_mem_nodup (l : List (String × List String))
    (hnd : (l.map Prod.fst).Nodup) (k : String) (v : List String)
    (h : (k, v) ∈ l) : GaleShapleyMatcher.dictGet l k = v := by
  have hmemf : (k, v) ∈ l.filter (fun p => p.1 == k) :=
    List.mem_filter.2 ⟨h, by simp⟩
  have hne : l.filter (fun p => p.1 == k) ≠ [] := List.ne_nil_of_mem hmemf
  rw [GaleShapleyMatcher.dictGet, List.getLast?_eq_getLast_of_ne_nil hne]
  have hglmem := List.getLast_mem hne
  have hgl_key : ((l.filter (fun p => p.1 == k)).getLast hne).1 = k := by
    have := (List.mem_filter.1 hglmem).2
    simpa using this
  have heq : (l.filter (fun p => p.1 == k)).getLast hne = (k, v) :=
    List.inj_on_of_nodup_map hnd (List.mem_of_mem_filter hglmem) h (by rw [hgl_key])
  rw [heq]
  rfl

theorem dictGetEntity_eq_of_mem_nodup (l : List Entity)
    (hnd : (l.map Entity.id).Nodup) (a : Entity) (h : a ∈ l) :
    GaleShapleyMatcher.dictGetEntity l a.id = some a := by
  have hmemf : a ∈ l.filter (fun e => e.id == a.id) := List.mem_filter.2 ⟨h, by simp⟩
  have hne : l.filter (fun e => e.id == a.id) ≠ [] := List.ne_nil_of_mem hmemf
  rw [GaleShapleyMatcher.dictGetEntity, List.getLast?_eq_getLast_of_ne_nil hne]
  have hglmem := List.getLast_mem hne
  have heq : (l.filter (fun e => e.id == a.id)).getLast hne = a := by
    refine List.inj_on_of_nodup_map hnd (List.mem_of_mem_filter hglmem) h ?_
    have := (List.mem_filter.1 hglmem).2
    simpa using this
  rw [heq]

theorem build_decomp (ea eb : List Entity) (c : Criteria) :
    GaleShapleyMatcher.build_preference_lists ea eb c =
      ea.map (fun a => (a.id, GaleShapleyMatcher.prefListA eb c a)) ++
      eb.map (fun b => (b.id, GaleShapleyMatcher.prefListB ea c b)) := rfl

theorem build_keys (ea eb : List Entity) (c : Criteria) :
    (GaleShapleyMatcher.build_preference_lists ea eb c).map Prod.fst =
      ea.map Entity.id ++ eb.map Entity.id := by
  rw [build_decomp, List.map_append, List.map_map, List.map_map]
  rfl

theorem dictGet_build_A (ea eb : List Entity) (c : Criteria)
    (hids : (ea.map Entity.id ++ eb.map Entity.id).Nodup)
    (a : Entity) (ha : a ∈ ea) :
    GaleShapleyMatcher.dictGet (GaleShapleyMatcher.build_preference_lists ea eb c) a.id =
      GaleShapleyMatcher.prefListA eb c a := by
  apply dictGet_eq_of_mem_nodup
  · rw [build_keys]
    exact hids
  · rw [build_decomp]
    exact List.mem_append_left _ (List.mem_map.2 ⟨a, ha, rfl⟩)

theorem dictGet_build_B (ea eb : List Entity) (c : Criteria)
    (hids : (ea.map Entity.id ++ eb.map Entity.id).Nodup)
    (b : Entity) (hb : b ∈ eb) :
    GaleShapleyMatcher.dictGet (GaleShapleyMatcher.build_preference_lists ea eb c) b.id =
      GaleShapleyMatcher.prefListB ea c b := by
  apply dictGet_eq_of_mem_nodup
  · rw [build_keys]
    exact hids
  · rw [build_decomp]
    exact List.mem_append_right _ (List.mem_map.2 ⟨b, hb, rfl⟩)

theorem prefListA_length (eb : List Entity) (c : Criteria) (a : Entity) :
    (GaleShapleyMatcher.prefListA eb c a).length = eb.length := by
  rw [GaleShapleyMatcher.prefListA, List.length_map, List.length_mergeSort, List.length_map]

theorem prefListA_mem (eb : List Entity) (c : Criteria) (a : Entity) (q : String)
    (hq : q ∈ GaleShapleyMatcher.prefListA eb c a) : q ∈ eb.map Entity.id := by
  rw [GaleShapleyMatcher.prefListA] at hq
  obtain ⟨pr, hpr, rfl⟩ := List.mem_map.1 hq
  have hpr' : pr ∈ eb.map (fun b =>
      (b.id, GaleShapleyMatcher.calculate_similarity a b c)) :=
    (List.mergeSort_perm _ _).mem_iff.1 hpr
  obtain ⟨b, hb, rfl⟩ := List.mem_map.1 hpr'
  exact List.mem_map.2 ⟨b, hb, rfl⟩

theorem gsInv_init (A B : List String) (prefs : String → List String) (hA : A.Nodup) :
    GSInv A B prefs ⟨A, [], fun _ => 0, 0⟩ := by
  refine ⟨fun x hx => hx, hA, List.nodup_nil, ?_, ?_, List.nodup_nil, ?_, ?_, ?_, ?_, ?_, ?_⟩
  · intro e he
    exact absurd he (List.not_mem_nil e)
  · intro e he
    exact absurd he (List.not_mem_nil e)
  · intro x hx e he
    exact absurd he (List.not_mem_nil e)
  · intro x hx
    exact Or.inl hx
  · intro p hp k hk hkl
    exact absurd hk (Nat.not_lt_zero k)
  · intro e he
    exact absurd he (List.not_mem_nil e)
  · show (0 : Nat) = (A.map (fun _ => 0)).sum
    rw [List.map_const', List.sum_replicate, smul_zero]
  · intro x hx
    exact Nat.zero_le _

theorem prefs_length_A (ea eb : List Entity) (c : Criteria)
    (hids : (ea.map Entity.id ++ eb.map Entity.id).Nodup) :
    ∀ x ∈ ea.map Entity.id,
      (GaleShapleyMatcher.dictGet
        (GaleShapleyMatcher.build_preference_lists ea eb c) x).length = eb.length := by
  intro x hx
  obtain ⟨a, ha, rfl⟩ := List.mem_map.1 hx
  rw [dictGet_build_A ea eb c hids a ha]
  exact prefListA_length eb c a

theorem finalState_spec (ea eb : List Entity) (c : Criteria)
    (hids : (ea.map Entity.id ++ eb.map Entity.id).Nodup) :
    GSInv (ea.map Entity.id) (eb.map Entity.id)
      (GaleShapleyMatcher.dictGet (GaleShapleyMatcher.build_preference_lists ea eb c))
      (GaleShapleyMatcher.finalState ea eb c) ∧
    (GaleShapleyMatcher.finalState ea eb c).free = [] := by
  set prefs := GaleShapleyMatcher.dictGet
    (GaleShapleyMatcher.build_preference_lists ea eb c) with hprefs
  have hA : (ea.map Entity.id).Nodup := (List.nodup_append.1 hids).1
  have hpB : ∀ x ∈ ea.map Entity.id, ∀ q ∈ prefs x, q ∈ eb.map Entity.id := by
    intro x hx q hq
    obtain ⟨a, ha, rfl⟩ := List.mem_map.1 hx
    rw [hprefs, dictGet_build_A ea eb c hids a ha] at hq
    exact prefListA_mem eb c a q hq
  have hinit : GSInv (ea.map Entity.id) (eb.map Entity.id) prefs
      (GaleShapleyMatcher.initState ea) := gsInv_init _ _ _ hA
  have hmeas : GaleShapleyMatcher.gsMeasure (ea.map Entity.id) prefs
      (GaleShapleyMatcher.initState ea) ≤
      GaleShapleyMatcher.gsFuel ea.length eb.length := by
    rw [GaleShapleyMatcher.gsMeasure, GaleShapleyMatcher.gsFuel]
    show ((ea.map Entity.id).map (fun p => (prefs p).length - 0)).sum
      + (ea.map Entity.id).length ≤ ea.length * eb.length + ea.length + 1
    have hmc : (ea.map Entity.id).map (fun p => (prefs p).length - 0) =
        (ea.map Entity.id).map (fun _ => eb.length) :=
      List.map_congr_left (fun x hx =>
        by rw [prefs_length_A ea eb c hids x hx, Nat.sub_zero])
    rw [hmc, List.map_const', List.sum_replicate, List.length_map, smul_eq_mul]
    omega
  exact gsLoop_correct (ea.map Entity.id) (eb.map Entity.id) prefs hA hpB _ _ hinit hmeas

theorem indexOf_get_le (l : List String) (k : Nat) (h : k < l.length) :
    l.indexOf (l.get ⟨k, h⟩) ≤ k := by
  induction l generalizing k with
  | nil => exact absurd h (Nat.not_lt_zero k)
  | cons a t ih =>
    cases k with
    | zero =>
      have hget : (a :: t).get ⟨0, h⟩ = a := rfl
      rw [hget, List.indexOf_cons_self]
    | succ n =>
      have hn : n < t.length := Nat.lt_of_succ_lt_succ h
      have hget : (a :: t).get ⟨n + 1, h⟩ = t.get ⟨n, hn⟩ := rfl
      rw [hget]
      by_cases hax : a = t.get ⟨n, hn⟩
      · rw [← hax, List.indexOf_cons_self]
        exact Nat.zero_le _
      · rw [List.indexOf_cons_ne t hax]
        exact Nat.succ_le_succ (ih n hn)

/-- C4: on non-empty sides with pairwise-distinct entity ids, the stable
matcher's deferred-acceptance loop converges (its free list empties within
the modelled iteration budget) after at most `n * m` proposals, the proposal
counter being the total advance of the per-proposer indices, which only ever
move forward. -/
theorem gs_loop_terminates (ea eb : List Entity) (c : Criteria)
    (ha : ea ≠ []) (hb : eb ≠ [])
    (hids : (ea.map Entity.id ++ eb.map Entity.id).Nodup) :
    (GaleShapleyMatcher.finalState ea eb c).free = [] ∧
    (GaleShapleyMatcher.finalState ea eb c).proposals ≤ ea.length * eb.length := by
  obtain ⟨hinv, hfree⟩ := finalState_spec ea eb c hids
  refine ⟨hfree, ?_⟩
  rw [hinv.props_eq]
  calc ((ea.map Entity.id).map (GaleShapleyMatcher.finalState ea eb c).index).sum
      ≤ ((ea.map Entity.id).map (fun x => (GaleShapleyMatcher.dictGet
          (GaleShapleyMatcher.build_preference_lists ea eb c) x).length)).sum :=
        List.sum_le_sum (fun x hx => hinv.index_le x hx)
    _ = ((ea.map Entity.id).map (fun _ => eb.length)).sum := by
        rw [List.map_congr_left (fun x hx => prefs_length_A ea eb c hids x hx)]
    _ = ea.length * eb.length := by
        rw [List.map_const', List.sum_replicate, List.length_map, smul_eq_mul]

/-- Witness for the termination bound on a concrete 1-by-1 instance. -/
theorem gs_loop_terminates_witness :
    (GaleShapleyMatcher.finalState [sampleX] [sampleY] sampleCriteria).free = [] ∧
    (GaleShapleyMatcher.finalState [sampleX] [sampleY] sampleCriteria).proposals ≤
      [sampleX].length * [sampleY].length :=
  gs_loop_terminates [sampleX] [sampleY] sampleCriteria
    (List.cons_ne_nil _ _) (List.cons_ne_nil _ _) (by with_unfolding_all decide)

theorem gs_stable_aux (ea eb : List Entity) (c : Criteria)
    (ha : ea ≠ []) (hb : eb ≠ [])
    (hids : (ea.map Entity.id ++ eb.map Entity.id).Nodup) :
    ∀ p ∈ ea.map Entity.id, ∀ q ∈ eb.map Entity.id,
      GaleShapleyMatcher.blockingPair
        (GaleShapleyMatcher.dictGet (GaleShapleyMatcher.build_preference_lists ea eb c))
        (GaleShapleyMatcher.finalState ea eb c).engagements p q = false := by
  obtain ⟨hinv, hfree⟩ := finalState_spec ea eb c hids
  intro p hp q hq
  cases hval : GaleShapleyMatcher.blockingPair
      (GaleShapleyMatcher.dictGet (GaleShapleyMatcher.build_preference_lists ea eb c))
      (GaleShapleyMatcher.finalState ea eb c).engagements p q with
  | false => rfl
  | true =>
    rw [GaleShapleyMatcher.blockingPair] at hval
    simp only [Bool.and_eq_true] at hval
    obtain ⟨⟨hneq, hA'⟩, hB'⟩ := hval
    exfalso
    cases hf : (GaleShapleyMatcher.finalState ea eb c).engagements.find?
        (fun e => e.2 == p) with
    | none =>
      have hnotval : ∀ e ∈ (GaleShapleyMatcher.finalState ea eb c).engagements,
          e.2 ≠ p := by
        intro e he hc
        have := List.find?_eq_none.1 hf e he
        simp [hc] at this
      have hexh : (GaleShapleyMatcher.dictGet
            (GaleShapleyMatcher.build_preference_lists ea eb c) p).length ≤
          (GaleShapleyMatcher.finalState ea eb c).index p := by
        rcases hinv.partition p hp with hpf | ⟨e, he, he2⟩ | hpi
        · rw [hfree] at hpf
          exact absurd hpf (List.not_mem_nil p)
        · exact absurd he2 (hnotval e he)
        · exact hpi
      have hAq : q ∈ GaleShapleyMatcher.dictGet
          (GaleShapleyMatcher.build_preference_lists ea eb c) p := by
        simp only [GaleShapleyMatcher.prefersOverPartnerA,
          GaleShapleyMatcher.partnerOfProposer, hf, Option.map_none'] at hA'
        simpa using hA'
      have hk : List.indexOf q (GaleShapleyMatcher.dictGet
            (GaleShapleyMatcher.build_preference_lists ea eb c) p) <
          (GaleShapleyMatcher.dictGet
            (GaleShapleyMatcher.build_preference_lists ea eb c) p).length :=
        List.indexOf_lt_length.2 hAq
      have hki : List.indexOf q (GaleShapleyMatcher.dictGet
            (GaleShapleyMatcher.build_preference_lists ea eb c) p) <
          (GaleShapleyMatcher.finalState ea eb c).index p := lt_of_lt_of_le hk hexh
      obtain ⟨p', hlkq, hrank⟩ := hinv.history p hp _ hki hk
      rw [List.indexOf_get hk] at hlkq hrank
      simp only [GaleShapleyMatcher.prefersOverPartnerB, hlkq, decide_eq_true_eq] at hB'
      omega
    | some e₀ =>
      obtain ⟨q₁, p₁⟩ := e₀
      have he₀ : (q₁, p₁) ∈ (GaleShapleyMatcher.finalState ea eb c).engagements :=
        List.mem_of_find?_eq_some hf
      have he₀p : p₁ = p := by
        have := List.find?_some hf
        simpa using this
      subst he₀p
      have hpl := hinv.partner_last (q₁, p₁) he₀
      replace hpl : ∃ hk : (GaleShapleyMatcher.finalState ea eb c).index p₁ - 1 <
          (GaleShapleyMatcher.dictGet
            (GaleShapleyMatcher.build_preference_lists ea eb c) p₁).length,
          0 < (GaleShapleyMatcher.finalState ea eb c).index p₁ ∧
          (GaleShapleyMatcher.dictGet
            (GaleShapleyMatcher.build_preference_lists ea eb c) p₁).get
            ⟨(GaleShapleyMatcher.finalState ea eb c).index p₁ - 1, hk⟩ = q₁ := hpl
      obtain ⟨hkl, hpos, hget⟩ := hpl
      have hq1le : List.indexOf q₁ (GaleShapleyMatcher.dictGet
            (GaleShapleyMatcher.build_preference_lists ea eb c) p₁) ≤
          (GaleShapleyMatcher.finalState ea eb c).index p₁ - 1 := by
        rw [← hget]
        exact indexOf_get_le _ _ hkl
      simp only [GaleShapleyMatcher.prefersOverPartnerA,
        GaleShapleyMatcher.partnerOfProposer, hf, Option.map_some',
        decide_eq_true_eq] at hA'
      have hkq : List.indexOf q (GaleShapleyMatcher.dictGet
            (GaleShapleyMatcher.build_preference_lists ea eb c) p₁) <
          (GaleShapleyMatcher.finalState ea eb c).index p₁ := by omega
      have hklen : List.indexOf q (GaleShapleyMatcher.dictGet
            (GaleShapleyMatcher.build_preference_lists ea eb c) p₁) <
          (GaleShapleyMatcher.dictGet
            (GaleShapleyMatcher.build_preference_lists ea eb c) p₁).length := by omega
      obtain ⟨p', hlkq, hrank⟩ := hinv.history p₁ hp _ hkq hklen
      rw [List.indexOf_get hklen] at hlkq hrank
      simp only [GaleShapleyMatcher.prefersOverPartnerB, hlkq, decide_eq_true_eq] at hB'
      omega

/-- C2: on non-empty sides with pairwise-distinct entity ids, the engagement
set the stable matcher's deferred-acceptance loop converges to (before the
min-score post-filter) admits no blocking pair: no proposer and acceptor,
not engaged to each other, each rank the other strictly above their current
partner under the derived preference lists. -/
theorem gs_matching_stable (ea eb : List Entity) (c : Criteria)
    (ha : ea ≠ []) (hb : eb ≠ [])
    (hids : (ea.map Entity.id ++ eb.map Entity.id).Nodup) :
    ∀ p ∈ ea.map Entity.id, ∀ q ∈ eb.map Entity.id,
      GaleShapleyMatcher.blockingPair
        (GaleShapleyMatcher.dictGet (GaleShapleyMatcher.build_preference_lists ea eb c))
        (GaleShapleyMatcher.finalState ea eb c).engagements p q = false :=
  gs_stable_aux ea eb c ha hb hids

/-- Witness for stability on a concrete 1-by-1 instance. -/
theorem gs_matching_stable_witness :
    GaleShapleyMatcher.blockingPair
      (GaleShapleyMatcher.dictGet
        (GaleShapleyMatcher.build_preference_lists [sampleX] [sampleY] sampleCriteria))
      (GaleShapleyMatcher.finalState [sampleX] [sampleY] sampleCriteria).engagements
      "X" "Y" = false :=
  gs_matching_stable [sampleX] [sampleY] sampleCriteria (List.cons_ne_nil _ _)
    (List.cons_ne_nil _ _) (by with_unfolding_all decide) "X"
    (by with_unfolding_all decide) "Y" (by with_unfolding_all decide)

theorem gs_matches_eq (ea eb : List Entity) (c : Criteria) (ha : ea ≠ []) (hb : eb ≠ []) :
    (GaleShapleyMatcher.matchEntities ea eb c).matches' =
      (GaleShapleyMatcher.finalState ea eb c).engagements.filterMap
        (GaleShapleyMatcher.buildMatch (ea ++ eb) c) := by
  rw [GaleShapleyMatcher.matchEntities, if_neg (not_or.2 ⟨ha, hb⟩)]

theorem gs_unmatched_eq (ea eb : List Entity) (c : Criteria) (ha : ea ≠ []) (hb : eb ≠ []) :
    (GaleShapleyMatcher.matchEntities ea eb c).unmatched_entities =
      ((ea ++ eb).filter (fun e =>
        ! ((((GaleShapleyMatcher.finalState ea eb c).engagements.filterMap
              (GaleShapleyMatcher.buildMatch (ea ++ eb) c)).map Match.entity_a_id) ++
           (((GaleShapleyMatcher.finalState ea eb c).engagements.filterMap
              (GaleShapleyMatcher.buildMatch (ea ++ eb) c)).map Match.entity_b_id)).contains
          e.id)).map Entity.id := by
  rw [GaleShapleyMatcher.matchEntities, if_neg (not_or.2 ⟨ha, hb⟩)]

theorem buildMatch_some_spec (all : List Entity) (c : Criteria) (e : String × String)
    (m : Match) (h : GaleShapleyMatcher.buildMatch all c e = some m) :
    m.entity_a_id = e.2 ∧ m.entity_b_id = e.1 ∧ c.min_score ≤ m.score := by
  rw [GaleShapleyMatcher.buildMatch] at h
  cases hx : GaleShapleyMatcher.dictGetEntity all e.2 with
  | none =>
    rw [hx] at h
    cases hy : GaleShapleyMatcher.dictGetEntity all e.1 with
    | none =>
      rw [hy] at h
      exact Option.noConfusion h
    | some b =>
      rw [hy] at h
      exact Option.noConfusion h
  | some a =>
    rw [hx] at h
    cases hy : GaleShapleyMatcher.dictGetEntity all e.1 with
    | none =>
      rw [hy] at h
      exact Option.noConfusion h
    | some b =>
      rw [hy] at h
      replace h : (if c.min_score ≤ GaleShapleyMatcher.calculate_similarity a b c then
          some (Match.mk e.2 e.1 (GaleShapleyMatcher.calculate_similarity a b c)
            [("algorithm", DetailValue.s "Gale-Shapley Algorithm"),
             ("stable", DetailValue.b true)] none) else none) = some m := h
      by_cases hsc : c.min_score ≤ GaleShapleyMatcher.calculate_similarity a b c
      · rw [if_pos hsc] at h
        obtain rfl := Option.some.inj h
        exact ⟨rfl, rfl, hsc⟩
      · rw [if_neg hsc] at h
        exact Option.noConfusion h

/-- C6: the min-score threshold acts at scoring time in the optimal-assignment
matcher (every aggregate is zeroed or already at least the threshold), while
the stable matcher builds its preference rankings from raw aggregates
independent of the threshold and filters only the converged pairs: an engaged
pair whose recomputed score passes the threshold becomes a Match, a failing
pair is dropped with both members unmatched, and every produced Match passes
the threshold and comes from an engagement. -/
theorem threshold_timing_split :
    (∀ (a b : Entity) (c : Criteria), HungarianMatcher.calculate_similarity a b c = 0 ∨
      c.min_score ≤ HungarianMatcher.calculate_similarity a b c) ∧
    (∀ (ea eb : List Entity) (c : Criteria) (ms : ℚ),
      GaleShapleyMatcher.build_preference_lists ea eb { c with min_score := ms } =
      GaleShapleyMatcher.build_preference_lists ea eb c) ∧
    (∀ (ea eb : List Entity) (c : Criteria), ea ≠ [] → eb ≠ [] →
      (ea.map Entity.id ++ eb.map Entity.id).Nodup →
      ∀ e ∈ (GaleShapleyMatcher.finalState ea eb c).engagements,
        (c.min_score ≤ GaleShapleyMatcher.engagedScore ea eb c e →
          (e.2, e.1) ∈ (GaleShapleyMatcher.matchEntities ea eb c).matches'.map
            (fun m => (m.entity_a_id, m.entity_b_id))) ∧
        (GaleShapleyMatcher.engagedScore ea eb c e < c.min_score →
          e.2 ∈ (GaleShapleyMatcher.matchEntities ea eb c).unmatched_entities ∧
          e.1 ∈ (GaleShapleyMatcher.matchEntities ea eb c).unmatched_entities)) ∧
    (∀ (ea eb : List Entity) (c : Criteria), ea ≠ [] → eb ≠ [] →
      ∀ m ∈ (GaleShapleyMatcher.matchEntities ea eb c).matches',
        c.min_score ≤ m.score ∧
        (m.entity_b_id, m.entity_a_id) ∈
          (GaleShapleyMatcher.finalState ea eb c).engagements) := by
  refine ⟨?_, ?_, ?_, ?_⟩
  · intro a b c
    simp only [HungarianMatcher.calculate_similarity]
    split_ifs with h1 h2
    · exact Or.inl rfl
    · exact Or.inl rfl
    · exact Or.inr (not_lt.1 h2)
  · intro ea eb c ms
    rfl
  · intro ea eb c ha hb hids e he
    obtain ⟨hinv, _⟩ := finalState_spec ea eb c hids
    have hall : ((ea ++ eb).map Entity.id).Nodup := by
      rw [List.map_append]
      exact hids
    obtain ⟨a, haea, haid⟩ := List.mem_map.1 (hinv.vals_A e he)
    obtain ⟨b, hbeb, hbid⟩ := List.mem_map.1 (hinv.keys_B e he)
    have hae : GaleShapleyMatcher.dictGetEntity (ea ++ eb) e.2 = some a := by
      rw [← haid]
      exact dictGetEntity_eq_of_mem_nodup _ hall a (List.mem_append_left _ haea)
    have hbe : GaleShapleyMatcher.dictGetEntity (ea ++ eb) e.1 = some b := by
      rw [← hbid]
      exact dictGetEntity_eq_of_mem_nodup _ hall b (List.mem_append_right _ hbeb)
    have hscore : GaleShapleyMatcher.engagedScore ea eb c e =
        GaleShapleyMatcher.calculate_similarity a b c := by
      rw [GaleShapleyMatcher.engagedScore, hae, hbe]
    have hbm_eq : GaleShapleyMatcher.buildMatch (ea ++ eb) c e =
        (if c.min_score ≤ GaleShapleyMatcher.calculate_similarity a b c then
          some (Match.mk e.2 e.1 (GaleShapleyMatcher.calculate_similarity a b c)
            [("algorithm", DetailValue.s "Gale-Shapley Algorithm"),
             ("stable", DetailValue.b true)] none) else none) := by
      rw [GaleShapleyMatcher.buildMatch, hae, hbe]
    constructor
    · intro hkeep
      rw [hscore] at hkeep
      rw [gs_matches_eq ea eb c ha hb]
      refine List.mem_map.2 ⟨Match.mk e.2 e.1
        (GaleShapleyMatcher.calculate_similarity a b c)
        [("algorithm", DetailValue.s "Gale-Shapley Algorithm"),
         ("stable", DetailValue.b true)] none,
        List.mem_filterMap.2 ⟨e, he, ?_⟩, rfl⟩
      rw [hbm_eq, if_pos hkeep]
    · intro hdrop
      rw [hscore] at hdrop
      have hbm_none : GaleShapleyMatcher.buildMatch (ea ++ eb) c e = none := by
        rw [hbm_eq, if_neg (not_le.2 hdrop)]
      have hdisj := (List.nodup_append.1 hids).2.2
      have hnm2 : e.2 ∉ ((((GaleShapleyMatcher.finalState ea eb c).engagements.filterMap
            (GaleShapleyMatcher.buildMatch (ea ++ eb) c)).map Match.entity_a_id) ++
          (((GaleShapleyMatcher.finalState ea eb c).engagements.filterMap
            (GaleShapleyMatcher.buildMatch (ea ++ eb) c)).map Match.entity_b_id)) := by
        intro hmem
        rcases List.mem_append.1 hmem with hm1 | hm1
        · obtain ⟨m', hm', hid'⟩ := List.mem_map.1 hm1
          obtain ⟨e', he', hbm'⟩ := List.mem_filterMap.1 hm'
          obtain ⟨hida, hidb, _⟩ := buildMatch_some_spec _ _ _ _ hbm'
          have he2 : e' = e := List.inj_on_of_nodup_map hinv.vals_nodup he' he
            (by rw [← hida, hid'])
          rw [he2, hbm_none] at hbm'
          exact Option.noConfusion hbm'
        · obtain ⟨m', hm', hid'⟩ := List.mem_map.1 hm1
          obtain ⟨e', he', hbm'⟩ := List.mem_filterMap.1 hm'
          obtain ⟨hida, hidb, _⟩ := buildMatch_some_spec _ _ _ _ hbm'
          have he1 : e'.1 = e.2 := by rw [← hidb, hid']
          exact hdisj (hinv.vals_A e he) (he1 ▸ hinv.keys_B e' he')
      have hnm1 : e.1 ∉ ((((GaleShapleyMatcher.finalState ea eb c).engagements.filterMap
            (GaleShapleyMatcher.buildMatch (ea ++ eb) c)).map Match.entity_a_id) ++
          (((GaleShapleyMatcher.finalState ea eb c).engagements.filterMap
            (GaleShapleyMatcher.buildMatch (ea ++ eb) c)).map Match.entity_b_id)) := by
        intro hmem
        rcases List.mem_append.1 hmem with hm1 | hm1
        · obtain ⟨m', hm', hid'⟩ := List.mem_map.1 hm1
          obtain ⟨e', he', hbm'⟩ := List.mem_filterMap.1 hm'
          obtain ⟨hida, hidb, _⟩ := buildMatch_some_spec _ _ _ _ hbm'
          have he2 : e'.2 = e.1 := by rw [← hida, hid']
          exact hdisj (he2 ▸ hinv.vals_A e' he') (hinv.keys_B e he)
        · obtain ⟨m', hm', hid'⟩ := List.mem_map.1 hm1
          obtain ⟨e', he', hbm'⟩ := List.mem_filterMap.1 hm'
          obtain ⟨hida, hidb, _⟩ := buildMatch_some_spec _ _ _ _ hbm'
          have he1 : e' = e := List.inj_on_of_nodup_map hinv.keys_nodup he' he
            (by rw [← hidb, hid'])
          rw [he1, hbm_none] at hbm'
          exact Option.noConfusion hbm'
      constructor
      · rw [gs_unmatched_eq ea eb c ha hb]
        refine List.mem_map.2 ⟨a, List.mem_filter.2 ⟨List.mem_append_left _ haea, ?_⟩, haid⟩
        simpa [haid] using hnm2
      · rw [gs_unmatched_eq ea eb c ha hb]
        refine List.mem_map.2 ⟨b, List.mem_filter.2 ⟨List.mem_append_right _ hbeb, ?_⟩, hbid⟩
        simpa [hbid] using hnm1
  · intro ea eb c ha hb m hm
    rw [gs_matches_eq ea eb c ha hb] at hm
    obtain ⟨e', he', hbm'⟩ := List.mem_filterMap.1 hm
    obtain ⟨hida, hidb, hsc⟩ := buildMatch_some_spec _ _ _ _ hbm'
    refine ⟨hsc, ?_⟩
    rw [hida, hidb]
    exact Prod.mk.eta ▸ he'

/-- Witness for the threshold split on a concrete 1-by-1 instance whose single
engagement passes the post-filter. -/
theorem threshold_timing_split_witness :
    ("Y", "X") ∈ (GaleShapleyMatcher.finalState [sampleX] [sampleY] sampleCriteria).engagements ∧
    sampleCriteria.min_score ≤
      GaleShapleyMatcher.engagedScore [sampleX] [sampleY] sampleCriteria ("Y", "X") ∧
    (("Y", "X").2, ("Y", "X").1) ∈
      (GaleShapleyMatcher.matchEntities [sampleX] [sampleY] sampleCriteria).matches'.map
        (fun m => (m.entity_a_id, m.entity_b_id)) :=
  ⟨by with_unfolding_all decide, by with_unfolding_all decide,
   (threshold_timing_split.2.2.1 [sampleX] [sampleY] sampleCriteria
     (List.cons_ne_nil _ _) (List.cons_ne_nil _ _) (by with_unfolding_all decide)
     ("Y", "X") (by with_unfolding_all decide)).1 (by with_unfolding_all decide)⟩

/-- C8 counterexample: the divergence instance is uniquely diagonally
dominant under the optimal-assignment matcher's own scorer (mutual strict
tops along the identity pairing), yet the two matchers return different
matchings, because the stable matcher ranks with its own, different scorer. -/
theorem matchers_diverge_on_dominant_instance :
    MutualTop [divX1, divX2] [divY1, divY2] divCriteria
      HungarianMatcher.calculate_similarity (fun i => ⟨i.1, i.2⟩) ∧
    (HungarianMatcher.matchEntities [divX1, divX2] [divY1, divY2] divCriteria).toOption.map
        matchedPairs ≠
      some (matchedPairs
        (GaleShapleyMatcher.matchEntities [divX1, divX2] [divY1, divY2] divCriteria)) :=
  ⟨by
    simp only [MutualTop]
    exact ⟨by with_unfolding_all decide, by with_unfolding_all decide⟩,
   by with_unfolding_all decide⟩

theorem filterMap_congr_some {α β : Type} (l : List α) (F : α → Option β) (G : α → β)
    (h : ∀ x ∈ l, F x = some (G x)) : l.filterMap F = l.map G := by
  induction l with
  | nil => rfl
  | cons a t ih =>
    rw [List.filterMap_cons, h a (List.mem_cons_self a t), List.map_cons,
      ih (fun x hx => h x (List.mem_cons_of_mem _ hx))]

theorem mergeSort_desc_head (l : List (String × ℚ)) (t : String × ℚ) (ht : t ∈ l)
    (hstrict : ∀ x ∈ l, x ≠ t → x.2 < t.2) :
    ∃ rest, l.mergeSort (fun x y => decide (y.2 ≤ x.2)) = t :: rest := by
  have hperm := List.mergeSort_perm l (fun x y => decide (y.2 ≤ x.2))
  have htm : t ∈ l.mergeSort (fun x y => decide (y.2 ≤ x.2)) := hperm.mem_iff.2 ht
  have hsorted : (l.mergeSort (fun x y => decide (y.2 ≤ x.2))).Pairwise
      (fun a b => decide (b.2 ≤ a.2) = true) :=
    List.sorted_mergeSort
      (fun a b d hab hbd => by
        simp only [decide_eq_true_eq] at hab hbd ⊢
        exact le_trans hbd hab)
      (fun a b => by
        simp only [Bool.or_eq_true, decide_eq_true_eq]
        exact (le_total a.2 b.2).symm)
      l
  cases hms : l.mergeSort (fun x y => decide (y.2 ≤ x.2)) with
  | nil =>
    rw [hms] at htm
    exact absurd htm (List.not_mem_nil t)
  | cons h rest =>
    by_cases hht : h = t
    · exact ⟨rest, by rw [hht]⟩
    · exfalso
      have hhl : h ∈ l := hperm.mem_iff.1 (by rw [hms]; exact List.mem_cons_self h rest)
      have hlt : h.2 < t.2 := hstrict h hhl hht
      have htr : t ∈ rest := by
        rw [hms] at htm
        rcases List.mem_cons.1 htm with hteq | htr'
        · exact absurd hteq.symm hht
        · exact htr'
      rw [hms] at hsorted
      have hle := (List.pairwise_cons.1 hsorted).1 t htr
      simp only [decide_eq_true_eq] at hle
      exact absurd hlt (not_lt.2 hle)

theorem hungarian_diag_aux (ea eb : List Entity) (c : Criteria)
    (hne : ea ≠ []) (hlen : ea.length = eb.length)
    (π : Fin ea.length → Fin eb.length)
    (hH : MutualTop ea eb c HungarianMatcher.calculate_similarity π)
    (hpos : ∀ i : Fin ea.length,
      0 < HungarianMatcher.calculate_similarity (ea.get i) (eb.get (π i)) c) :
    ∃ r, HungarianMatcher.matchEntities ea eb c = Except.ok r ∧
      matchedPairs r = ((List.finRange ea.length).map
        (fun i => ((ea.get i).id, (eb.get (π i)).id))).toFinset := by
  have hneb : eb ≠ [] := by
    intro hc
    rw [hc] at hlen
    exact hne (List.length_eq_zero.1 (by simpa using hlen))
  have hπinj : Function.Injective π := by
    intro i k hik
    by_contra hik'
    have h1 := hH.2 i k (fun hc => hik' hc.symm)
    have h2 := hH.2 k i hik'
    rw [← hik] at h2
    exact lt_asymm h1 h2
  have hmax : max ea.length eb.length = ea.length := by rw [hlen, Nat.max_self]
  have hπ2inj : Function.Injective (fun i : Fin ea.length => Fin.cast hlen.symm (π i)) := by
    intro i k h
    have hval := congrArg Fin.val h
    exact hπinj (Fin.ext hval)
  obtain ⟨σ, hσ⟩ := exists_perm_extension
    ((List.finRange ea.length).map (fun i => (i, Fin.cast hlen.symm (π i))))
    (by
      rw [List.map_map, show Prod.fst ∘ (fun i : Fin ea.length =>
        (i, Fin.cast hlen.symm (π i))) = id from rfl, List.map_id]
      exact List.nodup_finRange _)
    (by
      rw [List.map_map, show Prod.snd ∘ (fun i : Fin ea.length =>
        (i, Fin.cast hlen.symm (π i))) = (fun i => Fin.cast hlen.symm (π i)) from rfl]
      exact List.Nodup.map hπ2inj (List.nodup_finRange _))
  have hσeq : ∀ i, σ i = Fin.cast hlen.symm (π i) := fun i =>
    hσ (i, Fin.cast hlen.symm (π i)) (List.mem_map.2 ⟨i, List.mem_finRange i, rfl⟩)
  have hsim : ∀ (i j : Fin ea.length),
      HungarianMatcher.cost_at ea eb c ea.length i j =
        some (-(HungarianMatcher.calculate_similarity (ea.get i)
          (eb.get (Fin.cast hlen j)) c)) := by
    intro i j
    rw [HungarianMatcher.cost_at, dif_pos ⟨i.isLt, by rw [← hlen]; exact j.isLt⟩]
    rfl
  have hfeas_all : ∀ t : Fin ea.length → Fin ea.length,
      HungarianMatcher.feasibleB ea.length
        (HungarianMatcher.cost_at ea eb c ea.length) t = true := by
    intro t
    apply List.all_eq_true.2
    intro i _
    rw [hsim i (t i)]
    rfl
  have htc : ∀ t : Fin ea.length → Fin ea.length,
      HungarianMatcher.totalCost ea.length (HungarianMatcher.cost_at ea eb c ea.length) t =
        -(((List.finRange ea.length).map (fun i =>
          HungarianMatcher.calculate_similarity (ea.get i)
            (eb.get (Fin.cast hlen (t i))) c)).sum) := by
    intro t
    have hmapeq : (List.finRange ea.length).map
        (fun i => ((HungarianMatcher.cost_at ea eb c ea.length) i (t i)).getD 0)
        = (List.finRange ea.length).map (fun i =>
          -(HungarianMatcher.calculate_similarity (ea.get i)
            (eb.get (Fin.cast hlen (t i))) c)) := by
      apply List.map_congr_left
      intro i _
      rw [hsim i (t i)]
      rfl
    rw [HungarianMatcher.totalCost, hmapeq, sum_map_neg]
  have hlsa_ne : HungarianMatcher.linear_sum_assignment ea.length
      (HungarianMatcher.cost_at ea eb c ea.length) ≠ none := by
    rw [HungarianMatcher.linear_sum_assignment]
    intro hc
    have hempty := List.argmin_eq_none.1 hc
    have hmem : (⇑(Equiv.refl (Fin ea.length)) : Fin ea.length → Fin ea.length) ∈
        (HungarianMatcher.allAssignments ea.length).filter
          (HungarianMatcher.feasibleB ea.length
            (HungarianMatcher.cost_at ea eb c ea.length)) :=
      List.mem_filter.2 ⟨coe_perm_mem_allAssignments _, hfeas_all _⟩
    rw [hempty] at hmem
    exact absurd hmem (List.not_mem_nil _)
  obtain ⟨f, hlsa⟩ := Option.ne_none_iff_exists'.1 hlsa_ne
  obtain ⟨hfmem, hffeas, hfmin⟩ := lsa_some_spec hlsa
  have hrow : ∀ (i j : Fin ea.length), j ≠ σ i →
      HungarianMatcher.calculate_similarity (ea.get i) (eb.get (Fin.cast hlen j)) c <
      HungarianMatcher.calculate_similarity (ea.get i) (eb.get (Fin.cast hlen (σ i))) c := by
    intro i j hj
    rw [hσeq i, show Fin.cast hlen (Fin.cast hlen.symm (π i)) = π i from rfl]
    refine hH.1 i (Fin.cast hlen j) (fun hc => hj ?_)
    rw [hσeq i, ← hc]
    exact Fin.ext rfl
  have hopt : ((List.finRange ea.length).map (fun i =>
      HungarianMatcher.calculate_similarity (ea.get i)
        (eb.get (Fin.cast hlen (σ i))) c)).sum ≤
      ((List.finRange ea.length).map (fun i =>
        HungarianMatcher.calculate_similarity (ea.get i)
          (eb.get (Fin.cast hlen (f i))) c)).sum := by
    have hle := hfmin σ (coe_perm_mem_allAssignments σ) (hfeas_all σ)
    rw [htc, htc] at hle
    linarith
  have hfeq : ∀ i, f i = σ i := by
    by_contra hc
    push_neg at hc
    obtain ⟨i₀, hi₀⟩ := hc
    have hlt := List.sum_lt_sum
      (fun i => HungarianMatcher.calculate_similarity (ea.get i)
        (eb.get (Fin.cast hlen (f i))) c)
      (fun i => HungarianMatcher.calculate_similarity (ea.get i)
        (eb.get (Fin.cast hlen (σ i))) c)
      (fun i _ => by
        dsimp only
        by_cases hfi : f i = σ i
        · rw [hfi]
        · exact le_of_lt (hrow i (f i) hfi))
      ⟨i₀, List.mem_finRange i₀, hrow i₀ (f i₀) hi₀⟩
    linarith
  have hgpos : ∀ i : Fin ea.length, 0 < HungarianMatcher.calculate_similarity (ea.get i)
      (eb.get (Fin.cast hlen (f i))) c := by
    intro i
    rw [hfeq i, hσeq i, show Fin.cast hlen (Fin.cast hlen.symm (π i)) = π i from rfl]
    exact hpos i
  have hgmin : ∀ i : Fin ea.length, c.min_score ≤
      HungarianMatcher.calculate_similarity (ea.get i)
        (eb.get (Fin.cast hlen (f i))) c := by
    intro i
    rcases hungarian_similarity_cases (ea.get i) (eb.get (Fin.cast hlen (f i))) c
      with h0 | hge
    · exact absurd (hgpos i) (by rw [h0]; exact lt_irrefl 0)
    · exact hge
  have hdec : ∀ i ∈ List.finRange ea.length,
      HungarianMatcher.decode_at ea eb c ea.length f i =
      some (i.val, (f i).val, Match.mk (ea.get i).id (eb.get (Fin.cast hlen (f i))).id
        (HungarianMatcher.calculate_similarity (ea.get i)
          (eb.get (Fin.cast hlen (f i))) c)
        [("algorithm", DetailValue.s "Hungarian Algorithm"),
         ("entity_a_type", DetailValue.s (ea.get i).entity_type.value),
         ("entity_b_type", DetailValue.s (eb.get (Fin.cast hlen (f i))).entity_type.value)]
        none) := by
    intro i _
    simp only [HungarianMatcher.decode_at]
    rw [dif_pos (⟨i.isLt, by rw [← hlen]; exact (f i).isLt⟩ :
        i.val < ea.length ∧ (f i).val < eb.length)]
    split_ifs with hkeep
    · rfl
    · exact absurd ⟨hgpos i, hgmin i⟩ hkeep
  have hok : ∃ r, HungarianMatcher.matchEntities ea eb c = Except.ok r ∧
      r.matches' = ((List.finRange ea.length).filterMap
        (HungarianMatcher.decode_at ea eb c ea.length f)).map (fun t => t.2.2) := by
    rw [HungarianMatcher.matchEntities,
      if_neg (by rintro (h | h); exacts [hne h, hneb h])]
    generalize hMM : max ea.length eb.length = M
    have hM : M = ea.length := hMM.symm.trans hmax
    subst hM
    simp only [hlsa]
    exact ⟨_, rfl, rfl⟩
  obtain ⟨r, hokr, hmat⟩ := hok
  refine ⟨r, hokr, ?_⟩
  rw [matchedPairs, hmat, filterMap_congr_some _ _ _ hdec, List.map_map, List.map_map]
  congr 1
  apply List.map_congr_left
  intro i _
  show ((ea.get i).id, (eb.get (Fin.cast hlen (f i))).id) = ((ea.get i).id, (eb.get (π i)).id)
  rw [hfeq i, hσeq i]
  rfl

theorem gs_diag_aux (ea eb : List Entity) (c : Criteria)
    (hne : ea ≠ []) (hlen : ea.length = eb.length)
    (hids : (ea.map Entity.id ++ eb.map Entity.id).Nodup)
    (π : Fin ea.length → Fin eb.length)
    (hG : MutualTop ea eb c GaleShapleyMatcher.calculate_similarity π)
    (hminG : ∀ i : Fin ea.length,
      c.min_score ≤ GaleShapleyMatcher.calculate_similarity (ea.get i) (eb.get (π i)) c) :
    matchedPairs (GaleShapleyMatcher.matchEntities ea eb c) =
      ((List.finRange ea.length).map
        (fun i => ((ea.get i).id, (eb.get (π i)).id))).toFinset := by
  have hneb : eb ≠ [] := by
    intro hc
    rw [hc] at hlen
    exact hne (List.length_eq_zero.1 (by simpa using hlen))
  have hπinj : Function.Injective π := by
    intro i k hik
    by_contra hik'
    have h1 := hG.2 i k (fun hc => hik' hc.symm)
    have h2 := hG.2 k i hik'
    rw [← hik] at h2
    exact lt_asymm h1 h2
  obtain ⟨hinv, hfree⟩ := finalState_spec ea eb c hids
  have htopA : ∀ i : Fin ea.length, ∃ rest,
      GaleShapleyMatcher.dictGet
        (GaleShapleyMatcher.build_preference_lists ea eb c) (ea.get i).id =
        (eb.get (π i)).id :: rest := by
    intro i
    rw [dictGet_build_A ea eb c hids (ea.get i) (List.get_mem _ _ _),
      GaleShapleyMatcher.prefListA]
    obtain ⟨rest, hrest⟩ := mergeSort_desc_head
      (eb.map (fun b => (b.id, GaleShapleyMatcher.calculate_similarity (ea.get i) b c)))
      ((eb.get (π i)).id,
        GaleShapleyMatcher.calculate_similarity (ea.get i) (eb.get (π i)) c)
      (List.mem_map.2 ⟨eb.get (π i), List.get_mem _ _ _, rfl⟩)
      (by
        intro x hxl hxne
        obtain ⟨b, hbeb, hbx⟩ := List.mem_map.1 hxl
        obtain ⟨j, hjget⟩ := List.mem_iff_get.1 hbeb
        have hjne : j ≠ π i := by
          intro hc
          apply hxne
          rw [← hbx, ← hjget, hc]
        have hlt := hG.1 i j hjne
        rw [hjget] at hlt
        rw [← hbx]
        exact hlt)
    exact ⟨rest.map Prod.fst, by rw [hrest, List.map_cons]⟩
  have htopB : ∀ i : Fin ea.length, ∃ rest,
      GaleShapleyMatcher.dictGet
        (GaleShapleyMatcher.build_preference_lists ea eb c) (eb.get (π i)).id =
        (ea.get i).id :: rest := by
    intro i
    rw [dictGet_build_B ea eb c hids (eb.get (π i)) (List.get_mem _ _ _),
      GaleShapleyMatcher.prefListB]
    obtain ⟨rest, hrest⟩ := mergeSort_desc_head
      (ea.map (fun a => (a.id, GaleShapleyMatcher.calculate_similarity (eb.get (π i)) a c)))
      ((ea.get i).id,
        GaleShapleyMatcher.calculate_similarity (eb.get (π i)) (ea.get i) c)
      (List.mem_map.2 ⟨ea.get i, List.get_mem _ _ _, rfl⟩)
      (by
        intro x hxl hxne
        obtain ⟨a, haea, hax⟩ := List.mem_map.1 hxl
        obtain ⟨k, hkget⟩ := List.mem_iff_get.1 haea
        have hkne : k ≠ i := by
          intro hc
          apply hxne
          rw [← hax, ← hkget, hc]
        have hlt := hG.2 i k hkne
        rw [hkget] at hlt
        rw [← hax]
        exact hlt)
    exact ⟨rest.map Prod.fst, by rw [hrest, List.map_cons]⟩
  have hlkdiag : ∀ i : Fin ea.length,
      List.lookup (eb.get (π i)).id
        (GaleShapleyMatcher.finalState ea eb c).engagements = some (ea.get i).id := by
    intro i
    obtain ⟨restA, hA'⟩ := htopA i
    obtain ⟨restB, hB'⟩ := htopB i
    have hstab := gs_stable_aux ea eb c hne hneb hids (ea.get i).id
      (List.mem_map.2 ⟨ea.get i, List.get_mem _ _ _, rfl⟩) (eb.get (π i)).id
      (List.mem_map.2 ⟨eb.get (π i), List.get_mem _ _ _, rfl⟩)
    by_contra hlk'
    have h1 : (List.lookup (eb.get (π i)).id
        (GaleShapleyMatcher.finalState ea eb c).engagements !=
          some (ea.get i).id) = true :=
      bne_iff_ne.2 hlk'
    have h3 : GaleShapleyMatcher.prefersOverPartnerB
        (GaleShapleyMatcher.dictGet (GaleShapleyMatcher.build_preference_lists ea eb c))
        (GaleShapleyMatcher.finalState ea eb c).engagements
        (eb.get (π i)).id (ea.get i).id = true := by
      rw [GaleShapleyMatcher.prefersOverPartnerB]
      cases hlk2 : List.lookup (eb.get (π i)).id
          (GaleShapleyMatcher.finalState ea eb c).engagements with
      | none =>
        show (GaleShapleyMatcher.dictGet
          (GaleShapleyMatcher.build_preference_lists ea eb c)
            (eb.get (π i)).id).contains (ea.get i).id = true
        rw [hB']
        simp
      | some p' =>
        have hp'ne : (ea.get i).id ≠ p' := by
          intro hc
          exact hlk' (by rw [hlk2, hc])
        show decide (List.indexOf (ea.get i).id (GaleShapleyMatcher.dictGet
            (GaleShapleyMatcher.build_preference_lists ea eb c) (eb.get (π i)).id) <
          List.indexOf p' (GaleShapleyMatcher.dictGet
            (GaleShapleyMatcher.build_preference_lists ea eb c) (eb.get (π i)).id)) = true
        rw [hB', List.indexOf_cons_self, List.indexOf_cons_ne restB hp'ne]
        simp only [decide_eq_true_eq]
        exact Nat.succ_pos _
    have h2 : GaleShapleyMatcher.prefersOverPartnerA
        (GaleShapleyMatcher.dictGet (GaleShapleyMatcher.build_preference_lists ea eb c))
        (GaleShapleyMatcher.finalState ea eb c).engagements
        (ea.get i).id (eb.get (π i)).id = true := by
      rw [GaleShapleyMatcher.prefersOverPartnerA]
      cases hf : GaleShapleyMatcher.partnerOfProposer
          (GaleShapleyMatcher.finalState ea eb c).engagements (ea.get i).id with
      | none =>
        show (GaleShapleyMatcher.dictGet
          (GaleShapleyMatcher.build_preference_lists ea eb c)
            (ea.get i).id).contains (eb.get (π i)).id = true
        rw [hA']
        simp
      | some q' =>
        by_cases hq' : q' = (eb.get (π i)).id
        · exfalso
          rw [GaleShapleyMatcher.partnerOfProposer] at hf
          obtain ⟨e₀, hfind, hfst⟩ := Option.map_eq_some'.1 hf
          have he₀ : e₀ ∈ (GaleShapleyMatcher.finalState ea eb c).engagements :=
            List.mem_of_find?_eq_some hfind
          have he₀2 : e₀.2 = (ea.get i).id := by
            have := List.find?_some hfind
            simpa using this
          have hlkq : List.lookup e₀.1
              (GaleShapleyMatcher.finalState ea eb c).engagements = some e₀.2 :=
            smem_lookup_nodup hinv.keys_nodup (by rw [Prod.mk.eta]; exact he₀)
          apply hlk'
          have hqe : (eb.get (π i)).id = e₀.1 := by rw [hfst, hq']
          rw [hqe, hlkq, he₀2]
        · have hne' : (eb.get (π i)).id ≠ q' := fun hc => hq' hc.symm
          show decide (List.indexOf (eb.get (π i)).id (GaleShapleyMatcher.dictGet
              (GaleShapleyMatcher.build_preference_lists ea eb c) (ea.get i).id) <
            List.indexOf q' (GaleShapleyMatcher.dictGet
              (GaleShapleyMatcher.build_preference_lists ea eb c) (ea.get i).id)) = true
          rw [hA', List.indexOf_cons_self, List.indexOf_cons_ne restA hne']
          simp only [decide_eq_true_eq]
          exact Nat.succ_pos _
    have hbp : GaleShapleyMatcher.blockingPair
        (GaleShapleyMatcher.dictGet (GaleShapleyMatcher.build_preference_lists ea eb c))
        (GaleShapleyMatcher.finalState ea eb c).engagements
        (ea.get i).id (eb.get (π i)).id = true := by
      rw [GaleShapleyMatcher.blockingPair, h1, h2, h3]
      rfl
    rw [hstab] at hbp
    exact Bool.noConfusion hbp
  have hπ2inj : Function.Injective (fun i : Fin ea.length => Fin.cast hlen.symm (π i)) := by
    intro i k h
    have hval := congrArg Fin.val h
    exact hπinj (Fin.ext hval)
  have hπ3surj := Finite.injective_iff_surjective.1 hπ2inj
  have hdiag_mem : ∀ i : Fin ea.length,
      ((eb.get (π i)).id, (ea.get i).id) ∈
        (GaleShapleyMatcher.finalState ea eb c).engagements :=
    fun i => slookup_some_mem (hlkdiag i)
  have hmem_diag : ∀ e ∈ (GaleShapleyMatcher.finalState ea eb c).engagements,
      ∃ i : Fin ea.length, e = ((eb.get (π i)).id, (ea.get i).id) := by
    intro e he
    obtain ⟨b, hbeb, hbid⟩ := List.mem_map.1 (hinv.keys_B e he)
    obtain ⟨j, hjget⟩ := List.mem_iff_get.1 hbeb
    obtain ⟨i, hi⟩ := hπ3surj (Fin.cast hlen.symm j)
    have hji : π i = j := by
      have hval := congrArg Fin.val hi
      exact Fin.ext hval
    have hlke : List.lookup e.1
        (GaleShapleyMatcher.finalState ea eb c).engagements = some e.2 :=
      smem_lookup_nodup hinv.keys_nodup (by rw [Prod.mk.eta]; exact he)
    have hbide : (eb.get (π i)).id = e.1 := by rw [hji, hjget, hbid]
    have hl := hlkdiag i
    rw [hbide, hlke] at hl
    exact ⟨i, Prod.ext hbide.symm (Option.some.inj hl)⟩
  have hall : ((ea ++ eb).map Entity.id).Nodup := by
    rw [List.map_append]
    exact hids
  have hbm : ∀ e ∈ (GaleShapleyMatcher.finalState ea eb c).engagements,
      GaleShapleyMatcher.buildMatch (ea ++ eb) c e =
      some (Match.mk e.2 e.1 (GaleShapleyMatcher.engagedScore ea eb c e)
        [("algorithm", DetailValue.s "Gale-Shapley Algorithm"),
         ("stable", DetailValue.b true)] none) := by
    intro e he
    obtain ⟨i, rfl⟩ := hmem_diag e he
    have hae : GaleShapleyMatcher.dictGetEntity (ea ++ eb)
        ((eb.get (π i)).id, (ea.get i).id).2 = some (ea.get i) := by
      show GaleShapleyMatcher.dictGetEntity (ea ++ eb) (ea.get i).id = some (ea.get i)
      exact dictGetEntity_eq_of_mem_nodup _ hall _
        (List.mem_append_left _ (List.get_mem _ _ _))
    have hbe : GaleShapleyMatcher.dictGetEntity (ea ++ eb)
        ((eb.get (π i)).id, (ea.get i).id).1 = some (eb.get (π i)) := by
      show GaleShapleyMatcher.dictGetEntity (ea ++ eb) (eb.get (π i)).id =
        some (eb.get (π i))
      exact dictGetEntity_eq_of_mem_nodup _ hall _
        (List.mem_append_right _ (List.get_mem _ _ _))
    have hsc : GaleShapleyMatcher.engagedScore ea eb c
        ((eb.get (π i)).id, (ea.get i).id) =
        GaleShapleyMatcher.calculate_similarity (ea.get i) (eb.get (π i)) c := by
      rw [GaleShapleyMatcher.engagedScore, hae, hbe]
    rw [GaleShapleyMatcher.buildMatch, hae, hbe, hsc]
    show (if c.min_score ≤ GaleShapleyMatcher.calculate_similarity (ea.get i)
          (eb.get (π i)) c then
        some (Match.mk ((eb.get (π i)).id, (ea.get i).id).2
          ((eb.get (π i)).id, (ea.get i).id).1
          (GaleShapleyMatcher.calculate_similarity (ea.get i) (eb.get (π i)) c)
          [("algorithm", DetailValue.s "Gale-Shapley Algorithm"),
           ("stable", DetailValue.b true)] none) else none) =
      some (Match.mk ((eb.get (π i)).id, (ea.get i).id).2
        ((eb.get (π i)).id, (ea.get i).id).1
        (GaleShapleyMatcher.calculate_similarity (ea.get i) (eb.get (π i)) c)
        [("algorithm", DetailValue.s "Gale-Shapley Algorithm"),
         ("stable", DetailValue.b true)] none)
    rw [if_pos (hminG i)]
  have hfound : (GaleShapleyMatcher.finalState ea eb c).engagements.filterMap
      (GaleShapleyMatcher.buildMatch (ea ++ eb) c) =
      (GaleShapleyMatcher.finalState ea eb c).engagements.map
        (fun e => Match.mk e.2 e.1 (GaleShapleyMatcher.engagedScore ea eb c e)
          [("algorithm", DetailValue.s "Gale-Shapley Algorithm"),
           ("stable", DetailValue.b true)] none) :=
    filterMap_congr_some _ _ _ hbm
  rw [matchedPairs, gs_matches_eq ea eb c hne hneb, hfound, List.map_map]
  apply Finset.ext
  intro x
  rw [List.mem_toFinset, List.mem_toFinset]
  constructor
  · intro hx
    obtain ⟨e, he, hex⟩ := List.mem_map.1 hx
    obtain ⟨i, rfl⟩ := hmem_diag e he
    refine List.mem_map.2 ⟨i, List.mem_finRange i, ?_⟩
    rw [← hex]
    rfl
  · intro hx
    obtain ⟨i, _, hix⟩ := List.mem_map.1 hx
    refine List.mem_map.2 ⟨((eb.get (π i)).id, (ea.get i).id), hdiag_mem i, ?_⟩
    rw [← hix]
    rfl

/-- C8 (amended): on instances whose score matrix is uniquely diagonally
dominant under BOTH matchers' scorers along the same pairing — with equal
side lengths, pairwise-distinct entity ids, positive dominant scores for the
optimal-assignment scorer and threshold-passing dominant scores for the
stable-matching scorer — the two matchers produce the identical matching,
namely the dominant diagonal. -/
theorem matchers_agree_on_mutually_dominant_instance
    (ea eb : List Entity) (c : Criteria)
    (hne : ea ≠ []) (hlen : ea.length = eb.length)
    (hids : (ea.map Entity.id ++ eb.map Entity.id).Nodup)
    (π : Fin ea.length → Fin eb.length)
    (hH : MutualTop ea eb c HungarianMatcher.calculate_similarity π)
    (hG : MutualTop ea eb c GaleShapleyMatcher.calculate_similarity π)
    (hpos : ∀ i : Fin ea.length,
      0 < HungarianMatcher.calculate_similarity (ea.get i) (eb.get (π i)) c)
    (hminG : ∀ i : Fin ea.length,
      c.min_score ≤ GaleShapleyMatcher.calculate_similarity
        (ea.get i) (eb.get (π i)) c) :
    ∃ r, HungarianMatcher.matchEntities ea eb c = Except.ok r ∧
      matchedPairs r = matchedPairs (GaleShapleyMatcher.matchEntities ea eb c) := by
  obtain ⟨r, hok, hr⟩ := hungarian_diag_aux ea eb c hne hlen π hH hpos
  exact ⟨r, hok, by rw [hr, gs_diag_aux ea eb c hne hlen hids π hG hminG]⟩

/-- Witness for the amended dominance claim on a concrete 1-by-1 instance
where both scorers agree that the single cross pair is dominant. -/
theorem matchers_agree_on_mutually_dominant_instance_witness :
    MutualTop [sampleX] [sampleY] sampleCriteria
      HungarianMatcher.calculate_similarity (fun i => ⟨i.1, i.2⟩) ∧
    MutualTop [sampleX] [sampleY] sampleCriteria
      GaleShapleyMatcher.calculate_similarity (fun i => ⟨i.1, i.2⟩) ∧
    (∀ i : Fin [sampleX].length,
      0 < HungarianMatcher.calculate_similarity ([sampleX].get i)
        ([sampleY].get (⟨i.1, i.2⟩ : Fin [sampleY].length)) sampleCriteria) ∧
    (∀ i : Fin [sampleX].length,
      sampleCriteria.min_score ≤ GaleShapleyMatcher.calculate_similarity
        ([sampleX].get i)
        ([sampleY].get (⟨i.1, i.2⟩ : Fin [sampleY].length)) sampleCriteria) ∧
    (∃ r, HungarianMatcher.matchEntities [sampleX] [sampleY] sampleCriteria =
        Except.ok r ∧
      matchedPairs r =
        matchedPairs
          (GaleShapleyMatcher.matchEntities [sampleX] [sampleY] sampleCriteria)) :=
  ⟨⟨by with_unfolding_all decide, by with_unfolding_all decide⟩,
   ⟨by with_unfolding_all decide, by with_unfolding_all decide⟩,
   by with_unfolding_all decide,
   by with_unfolding_all decide,
   matchers_agree_on_mutually_dominant_instance [sampleX] [sampleY] sampleCriteria
     (List.cons_ne_nil _ _) rfl (by with_unfolding_all decide) (fun i => ⟨i.1, i.2⟩)
     ⟨by with_unfolding_all decide, by with_unfolding_all decide⟩
     ⟨by with_unfolding_all decide, by with_unfolding_all decide⟩
     (by with_unfolding_all decide) (by with_unfolding_all decide)⟩
